import Mathlib

/-!
Icebox: Linux introspection module and generic syscall monitor.

A shallow embedding of

* `src/icebox/icebox/linux/os_linux.cpp` (`OsLinux::setup`, `proc_list`, `proc_current`,
  `proc_find`, `proc_name`, `proc_id`),
* `src/fdp_exec/monitor/generic_mon.cpp` (`setup_all`, `setup_func`, `get_raw_args`),
* `src/icebox/icebox/plugins/sym_loader.cpp` (`load_module` and the module-create
  listener of `sym::Loader`),

followed by theorems about these definitions.

Conventions.  `uint64_t` values are naturals and every `+` / `-` of the source is reduced
modulo `2 ^ 64`.  `opt<T>` is `Option T`.  A C++ method that can dereference an empty
`opt` or loop returns an `Exec` value: `ret v` (normal return), `undefined` (an empty
`opt` was dereferenced) or `timeout` (the loop did not finish within the given fuel).
Side effects (guest reads, callback invocations, log lines) are recorded as a list of
events returned next to the result.
-/

namespace Icebox

/-! ## Machine words -/

/-- Addition of two `uint64_t`. -/
def wadd (a b : Nat) : Nat := (a + b) % 2 ^ 64

/-- Subtraction of two `uint64_t`. -/
def wsub (a b : Nat) : Nat := (a % 2 ^ 64 + (2 ^ 64 - b % 2 ^ 64)) % 2 ^ 64

/-- Outcome of running a method of the source. -/
inductive Exec (α : Type) where
  | ret (a : α)
  | undefined
  | timeout
  deriving DecidableEq

/-- The visitor verdict `walk_e`. -/
inductive walk_e where
  | WALK_STOP
  | WALK_NEXT
  deriving DecidableEq

/-- A process handle `proc_t`: kernel object address and page-table root. -/
structure proc_t where
  id : Nat
  dtb : Nat
  deriving DecidableEq

/-! ## Memory reader -/

/-- Modelled from the spec: the Memory Reader (`reader.hpp` is not under `src/`).  Guest
memory as seen through the kernel address space is a partial map from guest virtual
addresses to bytes; `none` is a `ReadFault` (translation or physical read failed).
`kdtb_` is the kernel page-table root the reader was made with. -/
structure Reader where
  mem : Nat → Option Nat
  kdtb_ : Nat

/-- Modelled from the spec: the raw read `reader.read(dst, ptr, size)`; it yields the
`size` bytes starting at `ptr`, or fails when any of them cannot be read. -/
def Reader.read_bytes (r : Reader) (ptr : Nat) : Nat → Option (List Nat)
  | 0 => some []
  | n + 1 =>
    match r.mem ptr, Reader.read_bytes r (ptr + 1) n with
    | some b, some bs => some (b % 256 :: bs)
    | _, _ => none

/-- Little-endian value of a byte string. -/
def le_value : List Nat → Nat
  | [] => 0
  | b :: bs => b + 256 * le_value bs

/-- Modelled from the spec: the typed read `reader.read(ptr)` of a pointer-sized
(64-bit little-endian) integer, built atop the raw read. -/
def Reader.read (r : Reader) (ptr : Nat) : Option Nat :=
  (r.read_bytes ptr 8).map le_value

/-- Modelled from the spec: the typed read `reader.le32(ptr)` of a 32-bit little-endian
integer, built atop the raw read. -/
def Reader.le32 (r : Reader) (ptr : Nat) : Option Nat :=
  (r.read_bytes ptr 4).map le_value

/-! ## Offset and symbol tables (`os_linux.cpp`, lines 16-86) -/

inductive cat_e where
  | REQUIRED
  | OPTIONAL
  deriving DecidableEq

def TASKSTRUCT_COMM : Nat := 0
def TASKSTRUCT_CRED : Nat := 1
def TASKSTRUCT_PID : Nat := 2
def TASKSTRUCT_TGID : Nat := 3
def TASKSTRUCT_REALPARENT : Nat := 4
def TASKSTRUCT_PARENT : Nat := 5
def TASKSTRUCT_TASKS : Nat := 6
def TASKSTRUCT_MM : Nat := 7
def TASKSTRUCT_ACTIVEMM : Nat := 8
def MMSTRUCT_PGD : Nat := 9
def CRED_UID : Nat := 10
def OFFSET_COUNT : Nat := 11

structure LinuxOffset where
  e_cat : cat_e
  e_id : Nat
  module : String
  struc : String
  member : String

def g_offsets : List LinuxOffset :=
  [ ⟨cat_e.REQUIRED, TASKSTRUCT_COMM, "dwarf", "task_struct", "comm"⟩,
    ⟨cat_e.REQUIRED, TASKSTRUCT_CRED, "dwarf", "task_struct", "cred"⟩,
    ⟨cat_e.REQUIRED, TASKSTRUCT_PID, "dwarf", "task_struct", "pid"⟩,
    ⟨cat_e.REQUIRED, TASKSTRUCT_TGID, "dwarf", "task_struct", "tgid"⟩,
    ⟨cat_e.REQUIRED, TASKSTRUCT_REALPARENT, "dwarf", "task_struct", "real_parent"⟩,
    ⟨cat_e.REQUIRED, TASKSTRUCT_PARENT, "dwarf", "task_struct", "parent"⟩,
    ⟨cat_e.REQUIRED, TASKSTRUCT_TASKS, "dwarf", "task_struct", "tasks"⟩,
    ⟨cat_e.REQUIRED, TASKSTRUCT_MM, "dwarf", "task_struct", "mm"⟩,
    ⟨cat_e.REQUIRED, TASKSTRUCT_ACTIVEMM, "dwarf", "task_struct", "active_mm"⟩,
    ⟨cat_e.REQUIRED, MMSTRUCT_PGD, "dwarf", "mm_struct", "pgd"⟩,
    ⟨cat_e.REQUIRED, CRED_UID, "dwarf", "cred", "uid"⟩ ]

def CURRENT_TASK : Nat := 0
def SYMBOL_COUNT : Nat := 1

structure LinuxSymbol where
  e_cat : cat_e
  e_id : Nat
  module : String
  name : String

def g_symbols : List LinuxSymbol :=
  [ ⟨cat_e.REQUIRED, CURRENT_TASK, "dwarf", "current_task"⟩ ]

/-! ## `OsLinux` -/

/-- The members of `OsLinux` the embedded methods use: the reader, the resolved tables
and the value `core_.regs.read(MSR_GS_BASE)` of the stopped guest. -/
structure OsLinux where
  reader_ : Reader
  gs_base : Nat
  offsets_ : List Nat
  symbols_ : List Nat

/-- The array access `offsets_[k]`. -/
def OsLinux.off (os : OsLinux) (k : Nat) : Nat := os.offsets_.getD k 0

/-- The array access `symbols_[k]`. -/
def OsLinux.sym (os : OsLinux) (k : Nat) : Nat := os.symbols_.getD k 0

/-! ## `OsLinux::setup` (lines 165-214) -/

/-- What `setup` consults outside the module: the result of `syms_.insert("dwarf", ...)`,
of `system_map.setup()`, and the two lookups, given as functions. -/
structure SetupEnv where
  insert_dwarf : Bool
  map_setup : Bool
  map_symbol : String → Option Nat
  struc_offset : String → String → String → Option Nat

/-- Log lines of `setup`. -/
inductive SetupLog where
  | fail_dwarf
  | fail_system_map
  | error_symbol (module name : String)
  | warning_symbol (module name : String)
  | error_offset (module struc member : String)
  | warning_offset (module struc member : String)

/-- Loop-carried variables of the two resolution loops of `setup`. -/
structure SetupState where
  fail : Bool
  i : Int
  arr : List Nat
  log : List SetupLog

/-- Body shared by the two `for` loops of `setup`: `fail |= e_id != ++i`, then the lookup
result `res` is stored at index `i`, or the miss is logged and, for a REQUIRED entry,
raises `fail`. -/
def resolve_step (st : SetupState) (e_cat : cat_e) (e_id : Nat) (res : Option Nat)
    (err warn : SetupLog) : SetupState :=
  let i := st.i + 1
  let fail := st.fail || decide ((e_id : Int) ≠ i)
  match res with
  | none =>
    { fail := fail || decide (e_cat = cat_e.REQUIRED)
      i := i
      arr := st.arr
      log := st.log ++ [if e_cat = cat_e.REQUIRED then err else warn] }
  | some v =>
    { fail := fail
      i := i
      arr := st.arr.set i.toNat v
      log := st.log }

/-- Body of `for(const auto& sym : g_symbols)`. -/
def symbol_step (env : SetupEnv) (st : SetupState) (sym : LinuxSymbol) : SetupState :=
  resolve_step st sym.e_cat sym.e_id (env.map_symbol sym.name)
    (SetupLog.error_symbol sym.module sym.name) (SetupLog.warning_symbol sym.module sym.name)

/-- Body of `for(const auto& off : g_offsets)`. -/
def offset_step (env : SetupEnv) (st : SetupState) (off : LinuxOffset) : SetupState :=
  resolve_step st off.e_cat off.e_id (env.struc_offset off.module off.struc off.member)
    (SetupLog.error_offset off.module off.struc off.member)
    (SetupLog.warning_offset off.module off.struc off.member)

/-- Method `OsLinux::setup`: the return value, the module afterwards and the log. -/
def OsLinux.setup (env : SetupEnv) (os : OsLinux) : Bool × OsLinux × List SetupLog :=
  if !env.insert_dwarf then (false, os, [SetupLog.fail_dwarf])
  else if !env.map_setup then (false, os, [SetupLog.fail_system_map])
  else
    let s1 := g_symbols.foldl (symbol_step env)
      { fail := false, i := -1, arr := List.replicate SYMBOL_COUNT 0, log := [] }
    let s2 := g_offsets.foldl (offset_step env)
      { fail := s1.fail, i := -1, arr := List.replicate OFFSET_COUNT 0, log := s1.log }
    (!s2.fail, { os with symbols_ := s1.arr, offsets_ := s2.arr }, s2.log)

/-! ## Process enumeration (`os_linux.cpp`, lines 221-316) -/

/-- Observable actions of the `OsLinux` process methods, in program order. -/
inductive Ev where
  | read (ptr : Nat)
  | read_buf (ptr size : Nat)
  | on_process (proc : proc_t) (verdict : walk_e)
  | log_unable_to_read_pgd (task_struc : Nat)
  | log_name_buffer_too_small
  deriving DecidableEq

/-- Method `OsLinux::proc_current`.  `*proc_id` is evaluated without testing `proc_id`, so a
failed read of the current-task slot is a dereference of an empty `opt`. -/
def OsLinux.proc_current (os : OsLinux) : Exec (Option proc_t) × List Ev :=
  let kpcr := os.gs_base
  let addr := wadd kpcr (os.sym CURRENT_TASK)
  match os.reader_.read addr with
  | some proc_id => (Exec.ret (some { id := proc_id, dtb := os.reader_.kdtb_ }), [Ev.read addr])
  | none => (Exec.undefined, [Ev.read addr])

/-- The address `task_struc + offsets_[TASKSTRUCT_MM] + offsets_[MMSTRUCT_PGD]`. -/
def OsLinux.mm_pgd (os : OsLinux) (task_struc : Nat) : Nat :=
  wadd (wadd task_struc (os.off TASKSTRUCT_MM)) (os.off MMSTRUCT_PGD)

/-- The address `task_struc + offsets_[TASKSTRUCT_ACTIVEMM] + offsets_[MMSTRUCT_PGD]`. -/
def OsLinux.active_mm_pgd (os : OsLinux) (task_struc : Nat) : Nat :=
  wadd (wadd task_struc (os.off TASKSTRUCT_ACTIVEMM)) (os.off MMSTRUCT_PGD)

/-- The two reads of the page-table root in the body of the `proc_list` loop: first
through `mm`, then, when that one fails, through `active_mm`; a double failure is
logged. -/
def OsLinux.read_pgd (os : OsLinux) (task_struc : Nat) : Option Nat × List Ev :=
  match os.reader_.read (os.mm_pgd task_struc) with
  | some pgd => (some pgd, [Ev.read (os.mm_pgd task_struc)])
  | none =>
    match os.reader_.read (os.active_mm_pgd task_struc) with
    | some pgd => (some pgd, [Ev.read (os.mm_pgd task_struc), Ev.read (os.active_mm_pgd task_struc)])
    | none =>
      (none, [Ev.read (os.mm_pgd task_struc), Ev.read (os.active_mm_pgd task_struc),
        Ev.log_unable_to_read_pgd task_struc])

/-- Puts the events `evs` in front of those of a continuation. -/
def after {α σ : Type} (evs : List Ev) (x : α × σ × List Ev) : α × σ × List Ev :=
  (x.1, x.2.1, evs ++ x.2.2)

/-- The `for` loop of `OsLinux::proc_list`, entered with the current value of `link`.
The visitor is a function of its own state `σ` (what the C++ closure captures). -/
def OsLinux.proc_list_loop {σ : Type} (os : OsLinux) (on_process : σ → proc_t → walk_e × σ)
    (head : Nat) : Nat → Option Nat → σ → Exec Bool × σ × List Ev
  | 0, _, s => (Exec.timeout, s, [])
  | fuel + 1, link, s =>
    if link = some head then (Exec.ret true, s, [])
    else
      match link with
      | none => (Exec.undefined, s, [])
      | some l =>
        let task_struc := wsub l (os.off TASKSTRUCT_TASKS)
        match os.read_pgd task_struc with
        | (none, evs) =>
          after (evs ++ [Ev.read l])
            (OsLinux.proc_list_loop os on_process head fuel (os.reader_.read l) s)
        | (some pgd, evs) =>
          let proc : proc_t := { id := task_struc, dtb := pgd }
          match on_process s proc with
          | (walk_e.WALK_STOP, s1) =>
            (Exec.ret true, s1, evs ++ [Ev.on_process proc walk_e.WALK_STOP])
          | (walk_e.WALK_NEXT, s1) =>
            after (evs ++ [Ev.on_process proc walk_e.WALK_NEXT, Ev.read l])
              (OsLinux.proc_list_loop os on_process head fuel (os.reader_.read l) s1)

/-- Method `OsLinux::proc_list`: result, final visitor state and events. -/
def OsLinux.proc_list {σ : Type} (os : OsLinux) (on_process : σ → proc_t → walk_e × σ)
    (fuel : Nat) (s : σ) : Exec Bool × σ × List Ev :=
  match os.proc_current with
  | (Exec.ret none, evs) => (Exec.ret false, s, evs)
  | (Exec.ret (some init_proc), evs) =>
    let head := wadd init_proc.id (os.off TASKSTRUCT_TASKS)
    after (evs ++ [Ev.read head])
      (os.proc_list_loop on_process head fuel (os.reader_.read head) s)
  | (Exec.undefined, evs) => (Exec.undefined, s, evs)
  | (Exec.timeout, evs) => (Exec.timeout, s, evs)

/-- Method `OsLinux::proc_id`. -/
def OsLinux.proc_id (os : OsLinux) (proc : proc_t) : Nat :=
  match os.reader_.le32 (wadd proc.id (os.off TASKSTRUCT_PID)) with
  | none => 0
  | some pid => pid

/-- The closure `proc_find(uint64_t pid)` hands to `proc_list`; its state is `found`. -/
def OsLinux.find_pid_visitor (os : OsLinux) (pid : Nat) (found : Option proc_t)
    (proc : proc_t) : walk_e × Option proc_t :=
  let got := os.proc_id proc
  if got ≠ pid then (walk_e.WALK_NEXT, found) else (walk_e.WALK_STOP, some proc)

/-- Method `OsLinux::proc_find(uint64_t pid)`; the return value of `proc_list` is ignored. -/
def OsLinux.proc_find (os : OsLinux) (fuel : Nat) (pid : Nat) : Exec (Option proc_t) :=
  match os.proc_list (os.find_pid_visitor pid) fuel none with
  | (Exec.ret _, found, _) => Exec.ret found
  | (Exec.undefined, _, _) => Exec.undefined
  | (Exec.timeout, _, _) => Exec.timeout

/-- Method `OsLinux::proc_name`: `sizeof buffer` is 21, the last byte of the buffer is then
overwritten by the terminator, and the name is the C string held by the buffer. -/
def OsLinux.proc_name (os : OsLinux) (proc : proc_t) : Option (List Nat) × List Ev :=
  let ptr := wadd proc.id (os.off TASKSTRUCT_COMM)
  match os.reader_.read_bytes ptr 21 with
  | none => (none, [Ev.read_buf ptr 21])
  | some bytes =>
    let buffer := bytes.set 20 0
    let name := buffer.takeWhile (fun c => decide (c ≠ 0))
    if name.length = 20 then (some name, [Ev.read_buf ptr 21, Ev.log_name_buffer_too_small])
    else (some name, [Ev.read_buf ptr 21])

/-! ### Vocabulary for statements about the task list -/

/-- Address of the current-task slot read by `proc_current`. -/
def OsLinux.current_slot (os : OsLinux) : Nat := wadd os.gs_base (os.sym CURRENT_TASK)

/-- Starting from the link value `link`, the guest's `next` pointers run through exactly
the link addresses `nodes`, none of them the anchor's, and then reach `head`. -/
def OsLinux.links (os : OsLinux) (head : Nat) : Option Nat → List Nat → Bool
  | link, [] => decide (link = some head)
  | link, n :: ns =>
    decide (link = some n) && decide (n ≠ head) && OsLinux.links os head (os.reader_.read n) ns

/-- The guest holds a well-formed circular tasks list: the current task `anchor` is
readable and the list consists of the anchor followed by the tasks whose links are at
`nodes`, the last of which points back to the anchor's link. -/
def OsLinux.is_task_list (os : OsLinux) (anchor : Nat) (nodes : List Nat) : Bool :=
  decide (os.reader_.read os.current_slot = some anchor) &&
    os.links (wadd anchor (os.off TASKSTRUCT_TASKS))
      (os.reader_.read (wadd anchor (os.off TASKSTRUCT_TASKS))) nodes

/-- The process `proc_list` reconstructs for the task whose link is at `l`, when its
page-table root can be read. -/
def OsLinux.node_proc (os : OsLinux) (l : Nat) : Option proc_t :=
  let task_struc := wsub l (os.off TASKSTRUCT_TASKS)
  (os.read_pgd task_struc).1.map (fun pgd => { id := task_struc, dtb := pgd })

/-- The visitor invocations recorded in a list of events. -/
def calls : List Ev → List (proc_t × walk_e)
  | [] => []
  | Ev.on_process p v :: evs => (p, v) :: calls evs
  | _ :: evs => calls evs

/-- The guest addresses read by the events of a list. -/
def reads : List Ev → List Nat
  | [] => []
  | Ev.read a :: evs => a :: reads evs
  | Ev.read_buf a _ :: evs => a :: reads evs
  | _ :: evs => reads evs

/-- Specification of an enumeration: the visitor is offered the processes of `ps` in
order until it answers `WALK_STOP`; yields its final state and the offers made. -/
def spec_visit {σ : Type} (on_process : σ → proc_t → walk_e × σ) :
    List proc_t → σ → σ × List (proc_t × walk_e)
  | [], s => (s, [])
  | p :: ps, s =>
    match on_process s p with
    | (walk_e.WALK_STOP, s1) => (s1, [(p, walk_e.WALK_STOP)])
    | (walk_e.WALK_NEXT, s1) =>
      ((spec_visit on_process ps s1).1, (p, walk_e.WALK_NEXT) :: (spec_visit on_process ps s1).2)

/-- Test guest memory: the given 64-bit little-endian words at the given addresses,
every other address unreadable. -/
def mem_of_words (ws : List (Nat × Nat)) (a : Nat) : Option Nat :=
  match ws.find? (fun w => decide (w.1 ≤ a ∧ a < w.1 + 8)) with
  | some w => some (w.2 / 256 ^ (a - w.1) % 256)
  | none => none

/-- Offsets of the example guests: `comm` 0x10, `pid` 0x20, `tasks` 0x30, `mm` 0x40,
`active_mm` 0x48, `pgd` 0 (positions as in `offset_e`). -/
def demo_offsets : List Nat := [0x10, 0, 0x20, 0, 0, 0, 0x30, 0x40, 0x48, 0, 0]

/-- Example guests: GS base 0x100, `current_task` at 0x8; the guest memory holds the
given words. -/
def demo_guest (words : List (Nat × Nat)) : OsLinux :=
  { reader_ := { mem := mem_of_words words, kdtb_ := 0x1aa000 }
    gs_base := 0x100
    offsets_ := demo_offsets
    symbols_ := [0x8] }

/-- Example guest: the current task is at 0x1000 (pid 1234), followed on the tasks list
by the tasks at 0x2000 (pid 7) and 0x3000 (pid 9), which links back to the current
task; every field is readable. -/
def demo_os : OsLinux :=
  demo_guest
    [ (0x108, 0x1000),
      (0x1030, 0x2030), (0x1020, 1234), (0x1040, 0xA000),
      (0x2030, 0x3030), (0x2020, 7), (0x2040, 0xB000),
      (0x3030, 0x1030), (0x3020, 9), (0x3040, 0xC000) ]

/-- Example guest: as `demo_os` with other pids (1, 7, 1234), and a fourth task at 0x4000
(pid 8) between 0x2000 and 0x3000 whose page-table root is unreadable both through `mm`
and through `active_mm`. -/
def demo_os_gap : OsLinux :=
  demo_guest
    [ (0x108, 0x1000),
      (0x1030, 0x2030), (0x1020, 1), (0x1040, 0xA000),
      (0x2030, 0x4030), (0x2020, 7), (0x2040, 0xB000),
      (0x4030, 0x3030), (0x4020, 8),
      (0x3030, 0x1030), (0x3020, 1234), (0x3040, 0xC000) ]

/-- Example guest: the current-task slot at 0x108 is unreadable. -/
def demo_os_no_current : OsLinux :=
  demo_guest [ (0x1030, 0x1030), (0x1020, 1234), (0x1040, 0xA000) ]

/-- Example guest for `proc_name`: `n` readable bytes `A` (0x41) from 0x1010 on, which
is `task_struct.comm` of the task at 0x1000; every other address is unreadable. -/
def demo_name_guest (n : Nat) : OsLinux :=
  { reader_ :=
      { mem := fun a => if 0x1010 ≤ a ∧ a < 0x1010 + n then some 0x41 else none
        kdtb_ := 0x1aa000 }
    gs_base := 0x100
    offsets_ := demo_offsets
    symbols_ := [0x8] }

/-! ## Generic syscall monitor (`generic_mon.cpp`) -/

/-- An entry of the table `functions`: a syscall name and the member function of the
monitor handling it, identified by its slot. -/
structure OnFunction where
  name : String
  on_function : Nat

/-- The module every syscall symbol is looked up in. -/
def dll : String := "ntdll"

/-- The breakpoint filter `core::filter_e`. -/
inductive filter_e where
  | FILTER_CR3
  | ANY_CR3
  deriving DecidableEq

/-- What a breakpoint runs on hit: the dispatcher `on_function_generic` the caller of
`setup_all` passed, or the closure of `setup_func` that invokes the member function
`on_function` of one table entry. -/
inductive Task (γ : Type) where
  | generic (on_function_generic : γ)
  | member (on_function : Nat)

/-- A breakpoint as requested from `core_.state.set_breakpoint`. -/
structure Breakpoint (γ : Type) where
  addr : Nat
  proc : proc_t
  filter : filter_e
  task : Task γ

/-- The state `Data` of a `GenericMonitor`: its breakpoints. -/
structure GenericMonitor (γ : Type) where
  bps : List (Breakpoint γ)

/-- Log lines of the monitor. -/
inductive MonLog where
  | unable_to_find_symbol (name : String)
  deriving DecidableEq

/-- Body of the loop of `setup_all`; `symbol` is `core_.sym.symbol`. -/
def setup_all_step {γ : Type} (symbol : String → String → Option Nat) (proc : proc_t)
    (on_function_generic : γ) (st : GenericMonitor γ × List MonLog) (f : OnFunction) :
    GenericMonitor γ × List MonLog :=
  match symbol dll f.name with
  | none => (st.1, st.2 ++ [MonLog.unable_to_find_symbol f.name])
  | some function_addr =>
    ({ bps := st.1.bps ++
        [{ addr := function_addr, proc := proc, filter := filter_e.FILTER_CR3,
           task := Task.generic on_function_generic }] }, st.2)

/-- Method `GenericMonitor::setup_all` over the table `functions` (the expansion of
`DECLARE_SYSCALLS_HANDLERS`, a parameter here): return value, monitor afterwards, log. -/
def GenericMonitor.setup_all {γ : Type} (symbol : String → String → Option Nat)
    (functions : List OnFunction) (m : GenericMonitor γ) (proc : proc_t)
    (on_function_generic : γ) : Bool × GenericMonitor γ × List MonLog :=
  let st := functions.foldl (setup_all_step symbol proc on_function_generic) (m, [])
  (true, st.1, st.2)

/-- Modelled from the spec: the macro `FAIL(VALUE, FMT, ...)` of the source tree of
`generic_mon.cpp` (its `log.hpp` is not under `src/`), used there as a statement.  It is
the hard failure of the specification: the diagnostic is logged and the enclosing
function returns `VALUE`, its state `st` being left as it is. -/
def FAIL {α β : Type} (value : α) (line : MonLog) (st : β) : α × β × List MonLog :=
  (value, st, [line])

/-- Method `GenericMonitor::setup_func`, as a recursion over the table entries still to
be compared with `fname`. -/
def GenericMonitor.setup_func {γ : Type} (symbol : String → String → Option Nat) :
    List OnFunction → GenericMonitor γ → proc_t → String → Bool × GenericMonitor γ × List MonLog
  | [], m, _, _ => (false, m, [])
  | f :: rest, m, proc, fname =>
    if fname ≠ f.name then GenericMonitor.setup_func symbol rest m proc fname
    else
      match symbol dll f.name with
      | none => FAIL false (MonLog.unable_to_find_symbol f.name) m
      | some function_addr =>
        (true,
          { bps := m.bps ++
              [{ addr := function_addr, proc := proc, filter := filter_e.FILTER_CR3,
                 task := Task.member f.on_function }] }, [])

/-- Observable actions of `get_raw_args`: the read of the argument at position `j` and
the invocation of `on_arg` with its value. -/
inductive ArgEv where
  | get_arg_by_index (j : Nat)
  | on_arg (j : Nat) (arg : Nat) (verdict : walk_e)
  deriving DecidableEq

/-- The loop of `get_raw_args` with `todo` iterations left before `j` reaches `nargs`.
`get_arg` is `monitor::get_arg_by_index(core_, j)`; `*arg` is evaluated without testing
`arg`. -/
def get_raw_args_from {σ : Type} (get_arg : Nat → Option Nat) (on_arg : σ → Nat → walk_e × σ) :
    Nat → Nat → σ → Exec Bool × σ × List ArgEv
  | 0, _, s => (Exec.ret true, s, [])
  | todo + 1, j, s =>
    match get_arg j with
    | none => (Exec.undefined, s, [ArgEv.get_arg_by_index j])
    | some arg =>
      match on_arg s arg with
      | (walk_e.WALK_STOP, s1) =>
        (Exec.ret true, s1, [ArgEv.get_arg_by_index j, ArgEv.on_arg j arg walk_e.WALK_STOP])
      | (walk_e.WALK_NEXT, s1) =>
        let r := get_raw_args_from get_arg on_arg todo (j + 1) s1
        (r.1, r.2.1,
          ArgEv.get_arg_by_index j :: ArgEv.on_arg j arg walk_e.WALK_NEXT :: r.2.2)

/-- Method `GenericMonitor::get_raw_args`. -/
def GenericMonitor.get_raw_args {σ : Type} (get_arg : Nat → Option Nat) (nargs : Nat)
    (on_arg : σ → Nat → walk_e × σ) (s : σ) : Exec Bool × σ × List ArgEv :=
  get_raw_args_from get_arg on_arg nargs 0 s

/-- Positions at which `on_arg` was invoked, in order. -/
def arg_calls : List ArgEv → List Nat
  | [] => []
  | ArgEv.on_arg j _ _ :: evs => j :: arg_calls evs
  | _ :: evs => arg_calls evs

/-- Positions whose argument was read, in order. -/
def arg_reads : List ArgEv → List Nat
  | [] => []
  | ArgEv.get_arg_by_index j :: evs => j :: arg_reads evs
  | _ :: evs => arg_reads evs

/-- Example environment of `setup`: both loads succeed, `current_task` is at 0x8 and
every member offset resolves to 0x30 except the member named `missing`. -/
def demo_env (missing : String) : SetupEnv :=
  { insert_dwarf := true
    map_setup := true
    map_symbol := fun name => if name = "current_task" then some 0x8 else none
    struc_offset := fun _ _ member => if member = missing then none else some 0x30 }

/-- Example syscall table of three entries. -/
def demo_functions : List OnFunction :=
  [ ⟨"NtOpenFile", 0⟩, ⟨"NtClose", 1⟩, ⟨"NtWriteFile", 2⟩ ]

/-- Example symbol store: `NtOpenFile` and `NtWriteFile` of `ntdll` resolve. -/
def demo_symbol (module name : String) : Option Nat :=
  if module = "ntdll" then
    if name = "NtOpenFile" then some 0x7000
    else if name = "NtWriteFile" then some 0x7100
    else none
  else none

/-! ## Dynamic symbol loader (`sym_loader.cpp`) -/

/-- A module handle `mod_t`. -/
structure mod_t where
  id : Nat
  flags : Nat
  deriving DecidableEq

/-- A guest virtual range `span_t`. -/
structure span_t where
  addr : Nat
  size : Nat
  deriving DecidableEq

/-- What the loader calls outside `sym_loader.cpp`, taken as parameters: the modules
`os->mod_list` offers for a process, `os->mod_name`, `os->mod_span`,
`pe::find_debug_codeview`, the file name `path::filename(name).replace_extension()`,
the insertion `sym::Symbols::insert` on a store of type `S` (result and store
afterwards), and the id `os->listen_mod_create` returns. -/
structure LoaderCore (S : Type) where
  mod_list : proc_t → List mod_t
  mod_name : proc_t → mod_t → Option String
  mod_span : proc_t → mod_t → Option span_t
  find_debug_codeview : Reader → span_t → Option span_t
  filename : String → String
  insert : S → String → span_t → List Nat → Bool × S
  listen_mod_create : Option Nat

/-- The members of `sym::Loader::Data` (the reference `core` is the parameter
`LoaderCore` of the functions below). -/
structure Data (S : Type) where
  symbols : S
  proc : proc_t
  predicate : mod_t → String → Bool
  buffer : List Nat
  reader : Reader
  bp_id : Option Nat

/-- Observable actions of the loader, in program order. -/
inductive LoadEv where
  | mod_name (proc : proc_t) (mod : mod_t)
  | predicate (mod : mod_t) (name : String)
  | mod_span (proc : proc_t) (mod : mod_t)
  | find_debug_codeview (span : span_t)
  | read (addr size : Nat)
  | insert (filename : String) (span : span_t) (blob : List Nat)
  | log_loading (name : String)
  | log_loaded_at (name : String) (span : span_t)
  | log_unable_to_load (name : String)
  deriving DecidableEq

/-- The call `buffer.resize(n)` of `std::vector<uint8_t>`. -/
def resize (buffer : List Nat) (n : Nat) : List Nat :=
  buffer.take n ++ List.replicate (n - buffer.length) 0

/-- Function `load_module_buffer`.  `&d.buffer[0]` indexes the vector, which is empty
after `resize(0)`: a descriptor of size 0 is an access to a nonexistent element.  What a
failed read leaves in the destination is not specified; the resized buffer is kept. -/
def load_module_buffer {S : Type} (core : LoaderCore S) (d : Data S) (span : span_t) :
    Exec Bool × Data S × List LoadEv :=
  match core.find_debug_codeview d.reader span with
  | none => (Exec.ret false, d, [LoadEv.find_debug_codeview span])
  | some debug =>
    let d1 := { d with buffer := resize d.buffer debug.size }
    if debug.size = 0 then (Exec.undefined, d1, [LoadEv.find_debug_codeview span])
    else
      match d.reader.read_bytes debug.addr debug.size with
      | none =>
        (Exec.ret false, d1,
          [LoadEv.find_debug_codeview span, LoadEv.read debug.addr debug.size])
      | some bytes =>
        (Exec.ret true, { d with buffer := bytes },
          [LoadEv.find_debug_codeview span, LoadEv.read debug.addr debug.size])

/-- Function `load_module_named`. -/
def load_module_named {S : Type} (core : LoaderCore S) (d : Data S) (mod : mod_t)
    (name : String) : Exec Bool × Data S × List LoadEv :=
  match core.mod_span d.proc mod with
  | none => (Exec.ret false, d, [LoadEv.log_loading name, LoadEv.mod_span d.proc mod])
  | some span =>
    let pre := [LoadEv.log_loading name, LoadEv.mod_span d.proc mod,
      LoadEv.log_loaded_at name span]
    match load_module_buffer core d span with
    | (Exec.ret true, d1, evs) =>
      let filename := core.filename name
      let inserted := core.insert d1.symbols filename span d1.buffer
      (Exec.ret inserted.1, { d1 with symbols := inserted.2 },
        pre ++ evs ++ [LoadEv.insert filename span d1.buffer])
    | (Exec.ret false, d1, evs) => (Exec.ret false, d1, pre ++ evs)
    | (Exec.undefined, d1, evs) => (Exec.undefined, d1, pre ++ evs)
    | (Exec.timeout, d1, evs) => (Exec.timeout, d1, pre ++ evs)

/-- Function `load_module`; `return FAIL(false, ...)` logs and yields false. -/
def load_module {S : Type} (core : LoaderCore S) (d : Data S) (mod : mod_t)
    (predicate : mod_t → String → Bool) : Exec Bool × Data S × List LoadEv :=
  match core.mod_name d.proc mod with
  | none => (Exec.ret false, d, [LoadEv.mod_name d.proc mod])
  | some name =>
    let pre := [LoadEv.mod_name d.proc mod, LoadEv.predicate mod name]
    if !predicate mod name then (Exec.ret false, d, pre)
    else
      match load_module_named core d mod name with
      | (Exec.ret true, d1, evs) => (Exec.ret true, d1, pre ++ evs)
      | (Exec.ret false, d1, evs) =>
        (Exec.ret false, d1, pre ++ evs ++ [LoadEv.log_unable_to_load name])
      | (Exec.undefined, d1, evs) => (Exec.undefined, d1, pre ++ evs)
      | (Exec.timeout, d1, evs) => (Exec.timeout, d1, pre ++ evs)

/-- The closure the constructor of `sym::Loader` registers with `listen_mod_create`,
fired for the event `(mod_proc, mod)` on the loader state `d` (`*d_`). -/
def on_mod_create {S : Type} (core : LoaderCore S) (d : Data S) (mod_proc : proc_t)
    (mod : mod_t) : Exec Unit × Data S × List LoadEv :=
  if d.proc.id ≠ mod_proc.id then (Exec.ret (), d, [])
  else
    match load_module core d mod d.predicate with
    | (Exec.ret _, d1, evs) => (Exec.ret (), d1, evs)
    | (Exec.undefined, d1, evs) => (Exec.undefined, d1, evs)
    | (Exec.timeout, d1, evs) => (Exec.timeout, d1, evs)

/-- The walk `d.core.os->mod_list(d.proc, ...)` of the constructor over the modules still
to be offered: each is loaded with `d.predicate` and the closure answers `WALK_NEXT`
whatever the load returned. -/
def load_all {S : Type} (core : LoaderCore S) : List mod_t → Data S →
    Exec Unit × Data S × List LoadEv
  | [], d => (Exec.ret (), d, [])
  | mod :: mods, d =>
    match load_module core d mod d.predicate with
    | (Exec.ret _, d1, evs) =>
      ((load_all core mods d1).1, (load_all core mods d1).2.1, evs ++ (load_all core mods d1).2.2)
    | (Exec.undefined, d1, evs) => (Exec.undefined, d1, evs)
    | (Exec.timeout, d1, evs) => (Exec.timeout, d1, evs)

/-- The constructor `sym::Loader::Loader(core, proc, predicate)`: `Data` is built with
an empty buffer, the store `symbols` as default-constructed and the reader made for
`proc`; the loaded modules are walked; then the listener is registered. -/
def Loader.new {S : Type} (core : LoaderCore S) (symbols : S) (reader : Reader)
    (proc : proc_t) (predicate : mod_t → String → Bool) : Exec Unit × Data S × List LoadEv :=
  let d : Data S :=
    { symbols := symbols, proc := proc, predicate := predicate, buffer := [], reader := reader,
      bp_id := none }
  match load_all core (core.mod_list proc) d with
  | (Exec.ret _, d1, evs) => (Exec.ret (), { d1 with bp_id := core.listen_mod_create }, evs)
  | (Exec.undefined, d1, evs) => (Exec.undefined, d1, evs)
  | (Exec.timeout, d1, evs) => (Exec.timeout, d1, evs)

/-- Example loader environment: the module 1 of any process is `C:/Windows/ntdll.dll`,
mapped at 0x7000 with its debug descriptor at 0x7100 (4 bytes); module 2 has a name but
no span; the store is the list of inserted records and insertion always succeeds. -/
def demo_core : LoaderCore (List (String × span_t × List Nat)) :=
  { mod_list := fun _ => [⟨1, 0⟩]
    mod_name := fun _ mod =>
      if mod.id = 1 then some "C:/Windows/ntdll.dll"
      else if mod.id = 2 then some "C:/Windows/user32.dll" else none
    mod_span := fun _ mod => if mod.id = 1 then some ⟨0x7000, 0x1000⟩ else none
    find_debug_codeview := fun _ span => if span.addr = 0x7000 then some ⟨0x7100, 4⟩ else none
    filename := fun name => if name = "C:/Windows/ntdll.dll" then "ntdll" else name
    insert := fun store name span blob => (true, store ++ [(name, span, blob)])
    listen_mod_create := some 5 }

/-- Example loader state: target process 0x2000, a predicate accepting every module,
a reader whose guest memory holds the word 0x53445352 at 0x7100. -/
def demo_data : Data (List (String × span_t × List Nat)) :=
  { symbols := []
    proc := ⟨0x2000, 0xB000⟩
    predicate := fun _ _ => true
    buffer := []
    reader := { mem := mem_of_words [(0x7100, 0x53445352)], kdtb_ := 0xB000 }
    bp_id := some 5 }

/-- Example guest: the tasks links run 0x1000, 0x2000, 0x3000 and from 0x3000 back to
0x2000, never to the current task 0x1000; every read of the walk succeeds. -/
def demo_os_cycle : OsLinux :=
  demo_guest
    [ (0x108, 0x1000),
      (0x1030, 0x2030), (0x1020, 1), (0x1040, 0xA000),
      (0x2030, 0x3030), (0x2020, 7), (0x2040, 0xB000),
      (0x3030, 0x2030), (0x3020, 9), (0x3040, 0xC000) ]

/-- Specification of the page-table root of a task, following the words "the pgd read
through mm": the member `pgd` of the `mm_struct` that the pointer stored in the member
`mm` of the task refers to. -/
def OsLinux.spec_pgd_through_mm (os : OsLinux) (task_struc : Nat) : Option Nat :=
  match os.reader_.read (wadd task_struc (os.off TASKSTRUCT_MM)) with
  | none => none
  | some mm => os.reader_.read (wadd mm (os.off MMSTRUCT_PGD))

/-- Example guest with `mm_struct.pgd` at offset 0x50: the current task 0x1000 and the
task 0x2000 form the tasks list; the member `mm` of the task 0x2000 (at 0x2040) points
to the `mm_struct` at 0x9000, whose `pgd` (at 0x9050) is 0xB000; the word at
0x2000 + 0x40 + 0x50 inside the task holds 0x7777. -/
def demo_os_mm : OsLinux :=
  { reader_ :=
      { mem := mem_of_words
          [ (0x108, 0x1000),
            (0x1030, 0x2030), (0x1020, 1), (0x1040, 0x9100), (0x9150, 0xA000), (0x1090, 0x6666),
            (0x2030, 0x1030), (0x2020, 7), (0x2040, 0x9000), (0x9050, 0xB000), (0x2090, 0x7777) ]
        kdtb_ := 0x1aa000 }
    gs_base := 0x100
    offsets_ := [0x10, 0, 0x20, 0, 0, 0, 0x30, 0x40, 0x48, 0x50, 0]
    symbols_ := [0x8] }

end Icebox

namespace Icebox

/-! ## `OsLinux::setup` -/

lemma resolve_step_fail (st : SetupState) (c : cat_e) (id : Nat) (res : Option Nat)
    (err warn : SetupLog) (hid : (id : Int) = st.i + 1) :
    (resolve_step st c id res err warn).fail
      = (st.fail || (decide (c = cat_e.REQUIRED) && res.isNone)) := by
  cases res <;> simp [resolve_step, hid]

lemma resolve_step_i (st : SetupState) (c : cat_e) (id : Nat) (res : Option Nat)
    (err warn : SetupLog) : (resolve_step st c id res err warn).i = st.i + 1 := by
  cases res <;> simp [resolve_step]

/-- A resolution loop over a table whose declared ids are the positions raises `fail`
exactly when it was raised before or a REQUIRED entry does not resolve. -/
lemma foldl_resolve_fail {ε : Type} (cat : ε → cat_e) (id : ε → Nat) (res : ε → Option Nat)
    (err warn : ε → SetupLog) :
    ∀ (es : List ε) (st : SetupState) (n : Nat), st.i + 1 = (n : Int) →
      es.map id = List.range' n es.length →
      (es.foldl (fun st e => resolve_step st (cat e) (id e) (res e) (err e) (warn e)) st).fail
        = (st.fail || es.any (fun e => decide (cat e = cat_e.REQUIRED) && (res e).isNone))
  | [], st, _, _, _ => by simp
  | e :: es, st, n, hi, hids => by
    simp only [List.map_cons, List.length_cons, List.range'_succ, List.cons.injEq] at hids
    rw [List.foldl_cons, foldl_resolve_fail cat id res err warn es _ (n + 1) _ hids.2,
      resolve_step_fail _ _ _ _ _ _ (by rw [hi, hids.1]), List.any_cons, Bool.or_assoc]
    rw [resolve_step_i]; push_cast; omega

lemma g_symbols_ids : g_symbols.map LinuxSymbol.e_id = List.range' 0 g_symbols.length := by
  decide

lemma g_offsets_ids : g_offsets.map LinuxOffset.e_id = List.range' 0 g_offsets.length := by
  decide

/-- The return value of `setup` once both loads succeeded. -/
lemma setup_loops (env : SetupEnv) (os : OsLinux) (h1 : env.insert_dwarf = true)
    (h2 : env.map_setup = true) :
    (os.setup env).1 =
      !(g_symbols.any (fun s => decide (s.e_cat = cat_e.REQUIRED) && (env.map_symbol s.name).isNone)
        || g_offsets.any (fun o => decide (o.e_cat = cat_e.REQUIRED)
            && (env.struc_offset o.module o.struc o.member).isNone)) := by
  have hs := foldl_resolve_fail LinuxSymbol.e_cat LinuxSymbol.e_id
    (fun s => env.map_symbol s.name) (fun s => SetupLog.error_symbol s.module s.name)
    (fun s => SetupLog.warning_symbol s.module s.name) g_symbols
    { fail := false, i := -1, arr := List.replicate SYMBOL_COUNT 0, log := [] } 0 (by simp)
    g_symbols_ids
  have ho := fun st (hst : st.i + 1 = ((0 : Nat) : Int)) =>
    foldl_resolve_fail LinuxOffset.e_cat LinuxOffset.e_id
      (fun o => env.struc_offset o.module o.struc o.member)
      (fun o => SetupLog.error_offset o.module o.struc o.member)
      (fun o => SetupLog.warning_offset o.module o.struc o.member) g_offsets st 0 hst
      g_offsets_ids
  simp only [OsLinux.setup, h1, h2, Bool.not_true, Bool.false_eq_true, if_false]
  change (!(g_offsets.foldl (fun st e => resolve_step st e.e_cat e.e_id
      (env.struc_offset e.module e.struc e.member) (SetupLog.error_offset e.module e.struc e.member)
      (SetupLog.warning_offset e.module e.struc e.member)) _).fail) = _
  rw [ho _ (by simp)]
  change (!((g_symbols.foldl (fun st e => resolve_step st e.e_cat e.e_id
      (env.map_symbol e.name) (SetupLog.error_symbol e.module e.name)
      (SetupLog.warning_symbol e.module e.name)) _).fail || _)) = _
  rw [hs]
  simp

/-- C1. `OsLinux::setup` returns true exactly when the "dwarf" insert succeeds, the
System.map loads, and every REQUIRED entry of the symbol table and of the offset table
resolves; if any one REQUIRED entry fails to resolve, `setup` returns false.  The declared
id of every entry of both tables equals its position (so the order check contributes
nothing), and the offset table consists of 11 entries, the symbol table of 1, all of
them REQUIRED. -/
theorem setup_true_iff_required_resolve (env : SetupEnv) (os : OsLinux) :
    ((os.setup env).1 = true ↔
      (env.insert_dwarf = true ∧ env.map_setup = true ∧
        (∀ s ∈ g_symbols, s.e_cat = cat_e.REQUIRED → (env.map_symbol s.name).isSome = true) ∧
        (∀ o ∈ g_offsets, o.e_cat = cat_e.REQUIRED →
          (env.struc_offset o.module o.struc o.member).isSome = true))) ∧
    (∀ s ∈ g_symbols, s.e_cat = cat_e.REQUIRED → env.map_symbol s.name = none →
      (os.setup env).1 = false) ∧
    (∀ o ∈ g_offsets, o.e_cat = cat_e.REQUIRED →
      env.struc_offset o.module o.struc o.member = none → (os.setup env).1 = false) ∧
    g_symbols.map LinuxSymbol.e_id = List.range g_symbols.length ∧
    g_offsets.map LinuxOffset.e_id = List.range g_offsets.length ∧
    g_symbols.length = 1 ∧ g_offsets.length = 11 ∧
    (∀ s ∈ g_symbols, s.e_cat = cat_e.REQUIRED) ∧ (∀ o ∈ g_offsets, o.e_cat = cat_e.REQUIRED) := by
  have hiff : (os.setup env).1 = true ↔
      (env.insert_dwarf = true ∧ env.map_setup = true ∧
        (∀ s ∈ g_symbols, s.e_cat = cat_e.REQUIRED → (env.map_symbol s.name).isSome = true) ∧
        (∀ o ∈ g_offsets, o.e_cat = cat_e.REQUIRED →
          (env.struc_offset o.module o.struc o.member).isSome = true)) := by
    by_cases h1 : env.insert_dwarf = true
    · by_cases h2 : env.map_setup = true
      · rw [setup_loops env os h1 h2]
        simp only [h1, h2, true_and, Bool.not_eq_true', Bool.or_eq_false_iff,
          List.any_eq_false, Bool.and_eq_true, decide_eq_true_eq, not_and, Option.isNone_iff_eq_none,
          Option.isSome_iff_ne_none, ne_eq]
      · simp [OsLinux.setup, h1, h2]
    · simp [OsLinux.setup, h1]
  refine ⟨hiff, ?_, ?_, by decide, by decide, by decide, by decide, by decide, by decide⟩
  · intro s hs hc hn
    by_contra hne
    have := (hiff.1 (by simpa using hne)).2.2.1 s hs hc
    simp [hn] at this
  · intro o ho hc hn
    by_contra hne
    have := (hiff.1 (by simpa using hne)).2.2.2 o ho hc
    simp [hn] at this

end Icebox

namespace Icebox

/-! ## `OsLinux::proc_list` -/

lemma calls_append (a b : List Ev) : calls (a ++ b) = calls a ++ calls b := by
  induction a with
  | nil => rfl
  | cons e a ih => cases e <;> simp [calls, ih]

/-- Reading the page-table root never invokes the visitor. -/
lemma read_pgd_no_call (os : OsLinux) (t : Nat) (p : proc_t) (v : walk_e) :
    Ev.on_process p v ∉ (os.read_pgd t).2 := by
  unfold OsLinux.read_pgd
  split
  · simp
  · split <;> simp

lemma calls_read_pgd (os : OsLinux) (t : Nat) : calls (os.read_pgd t).2 = [] := by
  unfold OsLinux.read_pgd
  split
  · simp [calls]
  · split <;> simp [calls]

/-- If an element absent from `A` occurs in `A ++ R`, it occurs in `R`, with the same
continuation. -/
lemma split_after {α : Type} (x : α) (post R : List α) :
    ∀ (A pre : List α), x ∉ A → A ++ R = pre ++ x :: post → ∃ pre1, R = pre1 ++ x :: post
  | [], pre, _, h => ⟨pre, by simpa using h⟩
  | a :: A, [], hx, h => by
    simp only [List.cons_append, List.nil_append, List.cons.injEq] at h
    exact absurd h.1.symm (fun hax => hx (by simp [hax]))
  | a :: A, b :: pre, hx, h => by
    simp only [List.cons_append, List.cons.injEq] at h
    exact split_after x post R A pre (fun hm => hx (List.mem_cons_of_mem _ hm)) h.2

lemma after_fst {α σ : Type} (evs : List Ev) (x : α × σ × List Ev) : (after evs x).1 = x.1 := rfl

lemma after_state {α σ : Type} (evs : List Ev) (x : α × σ × List Ev) :
    (after evs x).2.1 = x.2.1 := rfl

lemma after_events {α σ : Type} (evs : List Ev) (x : α × σ × List Ev) :
    (after evs x).2.2 = evs ++ x.2.2 := rfl

/-- In the loop, an invocation answered `WALK_STOP` is the last event and the loop
returns true. -/
lemma proc_list_loop_stop {σ : Type} (os : OsLinux) (on_process : σ → proc_t → walk_e × σ)
    (head : Nat) (p : proc_t) (post : List Ev) :
    ∀ (fuel : Nat) (link : Option Nat) (s : σ) (pre : List Ev),
      (os.proc_list_loop on_process head fuel link s).2.2
          = pre ++ Ev.on_process p walk_e.WALK_STOP :: post →
      post = [] ∧ (os.proc_list_loop on_process head fuel link s).1 = Exec.ret true
  | 0, link, s, pre, h => by simp [OsLinux.proc_list_loop] at h
  | fuel + 1, link, s, pre, h => by
    unfold OsLinux.proc_list_loop at h ⊢
    by_cases hl : link = some head
    · simp [hl] at h
    · simp only [hl, if_false] at h ⊢
      cases link with
      | none => simp at h
      | some l =>
        simp only [] at h ⊢
        rcases hp : os.read_pgd (wsub l (os.off TASKSTRUCT_TASKS)) with ⟨_ | pgd, evs⟩
        · have hevs : evs = (os.read_pgd (wsub l (os.off TASKSTRUCT_TASKS))).2 := by rw [hp]
          simp only [hp, after_events, after_fst] at h ⊢
          obtain ⟨pre1, h1⟩ := split_after _ post _ (evs ++ [Ev.read l]) pre
            (by simp [hevs, read_pgd_no_call]) h
          exact proc_list_loop_stop os on_process head p post fuel _ s pre1 h1
        · have hevs : evs = (os.read_pgd (wsub l (os.off TASKSTRUCT_TASKS))).2 := by rw [hp]
          simp only [hp] at h ⊢
          rcases hv : on_process s { id := wsub l (os.off TASKSTRUCT_TASKS), dtb := pgd }
            with ⟨_ | _, s1⟩
          · simp only [hv] at h ⊢
            obtain ⟨pre1, h1⟩ := split_after _ post _ evs pre
              (by simp [hevs, read_pgd_no_call]) h
            refine ⟨?_, trivial⟩
            have hlen := congrArg List.length h1
            simp only [List.length_cons, List.length_nil, List.length_append] at hlen
            exact List.eq_nil_of_length_eq_zero (by omega)
          · simp only [hv, after_events, after_fst] at h ⊢
            obtain ⟨pre1, h1⟩ := split_after _ post _
              (evs ++ [Ev.on_process _ walk_e.WALK_NEXT, Ev.read l]) pre
              (by simp [hevs, read_pgd_no_call]) h
            exact proc_list_loop_stop os on_process head p post fuel _ s1 pre1 h1

/-- C2. Early stop of `OsLinux::proc_list`: for every guest, visitor, visitor state and
amount of fuel, if the visitor answers `WALK_STOP` for a process, that invocation is the
last event of the run (no later visitor call, no later guest read, in particular not
the read of that node's next link) and `proc_list` returns true. -/
theorem proc_list_stops_at_walk_stop {σ : Type} (os : OsLinux)
    (on_process : σ → proc_t → walk_e × σ) (fuel : Nat) (s : σ) (p : proc_t)
    (pre post : List Ev)
    (h : (os.proc_list on_process fuel s).2.2 = pre ++ Ev.on_process p walk_e.WALK_STOP :: post) :
    post = [] ∧ (os.proc_list on_process fuel s).1 = Exec.ret true := by
  unfold OsLinux.proc_list at h ⊢
  unfold OsLinux.proc_current at h ⊢
  simp only [] at h ⊢
  cases hr : os.reader_.read (wadd os.gs_base (os.sym CURRENT_TASK)) with
  | none =>
    simp only [hr] at h
    have hlen := congrArg List.length h
    simp only [List.length_cons, List.length_nil, List.length_append] at hlen
    have hpre : pre = [] := List.eq_nil_of_length_eq_zero (by omega)
    simp [hpre] at h
  | some v =>
    simp only [hr, after_events, after_fst] at h ⊢
    obtain ⟨pre1, h1⟩ := split_after _ post _ _ pre (by simp) h
    exact proc_list_loop_stop os on_process _ p post fuel _ s pre1 h1

/-- Witness of C2 on the example guest: the visitor stops at its second invocation. -/
theorem proc_list_stops_at_walk_stop_witness :
    (demo_os.proc_list
        (fun (n : Nat) _ => (if n = 1 then walk_e.WALK_STOP else walk_e.WALK_NEXT, n + 1)) 10 0).2.2
      = [Ev.read 0x108, Ev.read 0x1030, Ev.read 0x2040,
          Ev.on_process ⟨0x2000, 0xB000⟩ walk_e.WALK_NEXT, Ev.read 0x2030, Ev.read 0x3040]
        ++ Ev.on_process ⟨0x3000, 0xC000⟩ walk_e.WALK_STOP :: [] ∧
    (([] : List Ev) = [] ∧
      (demo_os.proc_list
        (fun (n : Nat) _ => (if n = 1 then walk_e.WALK_STOP else walk_e.WALK_NEXT, n + 1)) 10 0).1
        = Exec.ret true) :=
  ⟨by decide, proc_list_stops_at_walk_stop demo_os _ 10 0 ⟨0x3000, 0xC000⟩
    [Ev.read 0x108, Ev.read 0x1030, Ev.read 0x2040,
      Ev.on_process ⟨0x2000, 0xB000⟩ walk_e.WALK_NEXT, Ev.read 0x2030, Ev.read 0x3040] []
    (by decide)⟩

end Icebox

namespace Icebox

/-- Over a well-formed chain of links the loop returns true, and the visitor is offered
exactly the processes of the nodes whose page-table root is readable, in list order,
until it stops. -/
lemma proc_list_loop_links {σ : Type} (os : OsLinux) (on_process : σ → proc_t → walk_e × σ)
    (head : Nat) :
    ∀ (nodes : List Nat) (fuel : Nat) (link : Option Nat) (s : σ),
      os.links head link nodes = true → nodes.length < fuel →
      (os.proc_list_loop on_process head fuel link s).1 = Exec.ret true ∧
      (os.proc_list_loop on_process head fuel link s).2.1
        = (spec_visit on_process (nodes.filterMap os.node_proc) s).1 ∧
      calls (os.proc_list_loop on_process head fuel link s).2.2
        = (spec_visit on_process (nodes.filterMap os.node_proc) s).2
  | _, 0, _, _, _, hf => by simp at hf
  | [], fuel + 1, link, s, hl, _ => by
    simp only [OsLinux.links, decide_eq_true_eq] at hl
    simp [OsLinux.proc_list_loop, hl, spec_visit, calls]
  | n :: ns, fuel + 1, link, s, hl, hf => by
    simp only [OsLinux.links, Bool.and_eq_true, decide_eq_true_eq] at hl
    obtain ⟨⟨hln, hne⟩, hrest⟩ := hl
    have hf1 : ns.length < fuel := by simpa using hf
    subst hln
    have hnh : ¬ (some n = some head) := by simpa using hne
    unfold OsLinux.proc_list_loop
    simp only [hnh, if_false]
    rcases hp : os.read_pgd (wsub n (os.off TASKSTRUCT_TASKS)) with ⟨_ | pgd, evs⟩
    · have hevs : calls evs = [] := by
        have := calls_read_pgd os (wsub n (os.off TASKSTRUCT_TASKS)); rwa [hp] at this
      have hnp : os.node_proc n = none := by simp [OsLinux.node_proc, hp]
      have ih := proc_list_loop_links os on_process head ns fuel (os.reader_.read n) s hrest hf1
      simp only [after_fst, after_state, after_events, calls_append, hevs, List.filterMap_cons,
        hnp, calls, List.nil_append]
      exact ih
    · have hevs : calls evs = [] := by
        have := calls_read_pgd os (wsub n (os.off TASKSTRUCT_TASKS)); rwa [hp] at this
      have hnp : os.node_proc n = some { id := wsub n (os.off TASKSTRUCT_TASKS), dtb := pgd } := by
        simp [OsLinux.node_proc, hp]
      simp only [List.filterMap_cons, hnp, spec_visit]
      rcases hv : on_process s { id := wsub n (os.off TASKSTRUCT_TASKS), dtb := pgd }
        with ⟨_ | _, s1⟩
      · simp [calls_append, hevs, calls]
      · have ih := proc_list_loop_links os on_process head ns fuel (os.reader_.read n) s1 hrest hf1
        simp only [after_fst, after_state, after_events, calls_append, hevs, calls,
          List.nil_append, List.cons_append, List.cons.injEq, true_and]
        exact ih

/-- The characterisation of `proc_list` on a well-formed tasks list. -/
lemma proc_list_task_list {σ : Type} (os : OsLinux) (on_process : σ → proc_t → walk_e × σ)
    (anchor : Nat) (nodes : List Nat) (fuel : Nat) (s : σ)
    (hlist : os.is_task_list anchor nodes = true) (hf : nodes.length < fuel) :
    (os.proc_list on_process fuel s).1 = Exec.ret true ∧
    (os.proc_list on_process fuel s).2.1
      = (spec_visit on_process (nodes.filterMap os.node_proc) s).1 ∧
    calls (os.proc_list on_process fuel s).2.2
      = (spec_visit on_process (nodes.filterMap os.node_proc) s).2 := by
  simp only [OsLinux.is_task_list, OsLinux.current_slot, Bool.and_eq_true,
    decide_eq_true_eq] at hlist
  obtain ⟨hcur, hlinks⟩ := hlist
  have h := proc_list_loop_links os on_process _ nodes fuel _ s hlinks hf
  simp only [OsLinux.proc_list, OsLinux.proc_current, hcur, after_fst, after_state, after_events,
    calls_append, calls, List.nil_append]
  exact h

/-- The loop of `proc_list` never returns false. -/
lemma proc_list_loop_ne_false {σ : Type} (os : OsLinux) (on_process : σ → proc_t → walk_e × σ)
    (head : Nat) :
    ∀ (fuel : Nat) (link : Option Nat) (s : σ),
      (os.proc_list_loop on_process head fuel link s).1 ≠ Exec.ret false
  | 0, _, _ => by simp [OsLinux.proc_list_loop]
  | fuel + 1, link, s => by
    unfold OsLinux.proc_list_loop
    by_cases hl : link = some head
    · simp [hl]
    · simp only [hl, if_false]
      cases link with
      | none => simp
      | some l =>
        simp only []
        rcases hp : os.read_pgd (wsub l (os.off TASKSTRUCT_TASKS)) with ⟨_ | pgd, evs⟩
        · simp only [after_fst]
          exact proc_list_loop_ne_false os on_process head fuel _ s
        · simp only []
          rcases hv : on_process s { id := wsub l (os.off TASKSTRUCT_TASKS), dtb := pgd }
            with ⟨_ | _, s1⟩
          · simp
          · simp only [after_fst]
            exact proc_list_loop_ne_false os on_process head fuel _ s1

/-- No run of `proc_list` returns false: `proc_current` never yields an empty result. -/
lemma proc_list_ne_false {σ : Type} (os : OsLinux) (on_process : σ → proc_t → walk_e × σ)
    (fuel : Nat) (s : σ) : (os.proc_list on_process fuel s).1 ≠ Exec.ret false := by
  unfold OsLinux.proc_list OsLinux.proc_current
  simp only []
  cases hr : os.reader_.read (wadd os.gs_base (os.sym CURRENT_TASK)) with
  | none => simp
  | some v =>
    simp only [after_fst]
    exact proc_list_loop_ne_false os on_process _ fuel _ s

end Icebox

namespace Icebox

/-- What `node_proc` yields: the task address is the link address minus the `tasks`
offset, the root is the value read through `mm`, or through `active_mm` when the read
through `mm` fails. -/
lemma node_proc_some (os : OsLinux) (l : Nat) (p : proc_t) (h : os.node_proc l = some p) :
    p.id = wsub l (os.off TASKSTRUCT_TASKS) ∧
    (os.reader_.read (os.mm_pgd p.id) = some p.dtb ∨
      (os.reader_.read (os.mm_pgd p.id) = none ∧
        os.reader_.read (os.active_mm_pgd p.id) = some p.dtb)) := by
  unfold OsLinux.node_proc OsLinux.read_pgd at h
  simp only [] at h
  cases h1 : os.reader_.read (os.mm_pgd (wsub l (os.off TASKSTRUCT_TASKS))) with
  | some v =>
    simp only [h1, Option.map_some', Option.some.injEq] at h
    subst h
    exact ⟨rfl, Or.inl h1⟩
  | none =>
    cases h2 : os.reader_.read (os.active_mm_pgd (wsub l (os.off TASKSTRUCT_TASKS))) with
    | some v =>
      simp only [h1, h2, Option.map_some', Option.some.injEq] at h
      subst h
      exact ⟨rfl, Or.inr ⟨h1, h2⟩⟩
    | none => simp [h1, h2] at h

/-- The page-table root of a node is unreadable exactly when both reads fail. -/
lemma node_proc_none_iff (os : OsLinux) (l : Nat) :
    os.node_proc l = none ↔
      os.reader_.read (os.mm_pgd (wsub l (os.off TASKSTRUCT_TASKS))) = none ∧
      os.reader_.read (os.active_mm_pgd (wsub l (os.off TASKSTRUCT_TASKS))) = none := by
  unfold OsLinux.node_proc OsLinux.read_pgd
  cases h1 : os.reader_.read (os.mm_pgd (wsub l (os.off TASKSTRUCT_TASKS))) with
  | some v => simp [h1]
  | none =>
    cases h2 : os.reader_.read (os.active_mm_pgd (wsub l (os.off TASKSTRUCT_TASKS))) with
    | some v => simp [h1, h2]
    | none => simp [h1, h2]

/-- A visitor that always continues is offered every process of the list. -/
lemma spec_visit_all_next {σ : Type} (os : OsLinux) (on_process : σ → proc_t → walk_e × σ)
    (hnext : ∀ s p, (on_process s p).1 = walk_e.WALK_NEXT) :
    ∀ (nodes : List Nat) (s : σ), (∀ l ∈ nodes, os.node_proc l ≠ none) →
      List.Forall₂
        (fun l (c : proc_t × walk_e) => c.2 = walk_e.WALK_NEXT ∧ os.node_proc l = some c.1)
        nodes (spec_visit on_process (nodes.filterMap os.node_proc) s).2
  | [], s, _ => by simp [spec_visit]
  | n :: ns, s, h => by
    obtain ⟨p, hp⟩ := Option.ne_none_iff_exists'.1 (h n (by simp))
    simp only [List.filterMap_cons, hp, spec_visit]
    rcases hv : on_process s p with ⟨v, s1⟩
    have hv1 : v = walk_e.WALK_NEXT := by have := hnext s p; rw [hv] at this; exact this
    subst hv1
    simp only []
    exact List.Forall₂.cons ⟨rfl, hp⟩
      (spec_visit_all_next os on_process hnext ns s1 (fun l hl => h l (List.mem_cons_of_mem _ hl)))

/-- C3 as stated fails.  In the example guest `demo_os` the tasks list is well formed
and every read succeeds (each of the three tasks, the anchor 0x1000 included, has a
readable page-table root), yet the visitor that always answers `WALK_NEXT` is offered the
tasks 0x2000 and 0x3000 only and never the anchor.  In the example guest `demo_os_mm`,
again well formed with every read succeeding, the pgd read through `mm` of the task
0x2000 is 0xB000, yet the visitor is handed the dtb 0x7777, the word found at task +
`mm` offset + `pgd` offset: the `mm` pointer is not followed. -/
theorem proc_list_omits_anchor :
    demo_os.is_task_list 0x1000 [0x2030, 0x3030] = true ∧
    [0x1030, 0x2030, 0x3030].map demo_os.node_proc
      = [some ⟨0x1000, 0xA000⟩, some ⟨0x2000, 0xB000⟩, some ⟨0x3000, 0xC000⟩] ∧
    (demo_os.proc_list (fun (_ : Unit) _ => (walk_e.WALK_NEXT, ())) 10 ()).1 = Exec.ret true ∧
    calls (demo_os.proc_list (fun (_ : Unit) _ => (walk_e.WALK_NEXT, ())) 10 ()).2.2
      = [(⟨0x2000, 0xB000⟩, walk_e.WALK_NEXT), (⟨0x3000, 0xC000⟩, walk_e.WALK_NEXT)] ∧
    (⟨0x1000, 0xA000⟩, walk_e.WALK_NEXT)
      ∉ calls (demo_os.proc_list (fun (_ : Unit) _ => (walk_e.WALK_NEXT, ())) 10 ()).2.2 ∧
    demo_os_mm.is_task_list 0x1000 [0x2030] = true ∧
    demo_os_mm.spec_pgd_through_mm 0x2000 = some 0xB000 ∧
    (demo_os_mm.proc_list (fun (_ : Unit) _ => (walk_e.WALK_NEXT, ())) 10 ()).1 = Exec.ret true ∧
    calls (demo_os_mm.proc_list (fun (_ : Unit) _ => (walk_e.WALK_NEXT, ())) 10 ()).2.2
      = [(⟨0x2000, 0x7777⟩, walk_e.WALK_NEXT)] := by
  decide

/-- C3, amended.  On a well-formed circular tasks list (anchor `anchor`, then the tasks
whose links are at `nodes`) in which the reads of the walk succeed, with a visitor that
always answers `WALK_NEXT` and fuel for the whole list, `proc_list` returns true and
calls the visitor exactly once for every task other than the anchor, in list order: the
calls correspond one to one to `nodes`, each with id = link address minus the `tasks`
offset.  Nothing is stated about the dtb handed over. -/
theorem proc_list_visits_every_task_but_anchor {σ : Type} (os : OsLinux)
    (on_process : σ → proc_t → walk_e × σ) (anchor : Nat) (nodes : List Nat) (fuel : Nat) (s : σ)
    (hlist : os.is_task_list anchor nodes = true)
    (hreads : ∀ l ∈ nodes,
      os.reader_.read (os.mm_pgd (wsub l (os.off TASKSTRUCT_TASKS))) ≠ none ∨
      os.reader_.read (os.active_mm_pgd (wsub l (os.off TASKSTRUCT_TASKS))) ≠ none)
    (hnext : ∀ s p, (on_process s p).1 = walk_e.WALK_NEXT)
    (hfuel : nodes.length < fuel) :
    (os.proc_list on_process fuel s).1 = Exec.ret true ∧
    List.Forall₂
      (fun l (c : proc_t × walk_e) =>
        c.2 = walk_e.WALK_NEXT ∧ c.1.id = wsub l (os.off TASKSTRUCT_TASKS))
      nodes (calls (os.proc_list on_process fuel s).2.2) := by
  obtain ⟨hret, -, hcalls⟩ := proc_list_task_list os on_process anchor nodes fuel s hlist hfuel
  refine ⟨hret, ?_⟩
  rw [hcalls]
  have hsome : ∀ l ∈ nodes, os.node_proc l ≠ none := by
    intro l hl hnone
    have := (node_proc_none_iff os l).1 hnone
    rcases hreads l hl with h | h
    · exact h this.1
    · exact h this.2
  refine (spec_visit_all_next os on_process hnext nodes s hsome).imp ?_
  rintro l c ⟨hc, hp⟩
  exact ⟨hc, (node_proc_some os l c.1 hp).1⟩

/-- Witness of the amended C3 on the example guest. -/
theorem proc_list_visits_every_task_but_anchor_witness :
    demo_os.is_task_list 0x1000 [0x2030, 0x3030] = true ∧
    ((demo_os.proc_list (fun (n : Nat) _ => (walk_e.WALK_NEXT, n + 1)) 3 0).1 = Exec.ret true ∧
      List.Forall₂
        (fun l (c : proc_t × walk_e) =>
          c.2 = walk_e.WALK_NEXT ∧ c.1.id = wsub l (demo_os.off TASKSTRUCT_TASKS))
        [0x2030, 0x3030]
        (calls (demo_os.proc_list (fun (n : Nat) _ => (walk_e.WALK_NEXT, n + 1)) 3 0).2.2)) :=
  ⟨by decide,
    proc_list_visits_every_task_but_anchor demo_os _ 0x1000 [0x2030, 0x3030] 3 0 (by decide)
      (by decide) (fun _ _ => rfl) (by decide)⟩

end Icebox

namespace Icebox

/-- C4. Single-node read failure in `OsLinux::proc_list`.  Let the tasks list after the
anchor be `pre ++ x :: post`, where the page-table root of the node `x` is unreadable both
through `mm` and through `active_mm`.  Then, given fuel for the list, `proc_list` returns
true, and its visitor calls and final visitor state are those of the enumeration of
`pre ++ post`: the visitor is not called for `x` and the nodes after it are processed.
They coincide with the calls and final state of `proc_list` on any guest `os1` whose list
is `pre ++ post` (the failing node absent) with the same page-table roots.  No run of
`proc_list` returns false while the anchor is readable. -/
theorem proc_list_skips_unreadable_node {σ : Type} (os os1 : OsLinux)
    (on_process : σ → proc_t → walk_e × σ) (anchor anchor1 x : Nat) (pre post : List Nat)
    (fuel : Nat) (s : σ)
    (hlist : os.is_task_list anchor (pre ++ x :: post) = true)
    (hmm : os.reader_.read (os.mm_pgd (wsub x (os.off TASKSTRUCT_TASKS))) = none)
    (hamm : os.reader_.read (os.active_mm_pgd (wsub x (os.off TASKSTRUCT_TASKS))) = none)
    (hlist1 : os1.is_task_list anchor1 (pre ++ post) = true)
    (hsame : ∀ l ∈ pre ++ post, os1.node_proc l = os.node_proc l)
    (hfuel : (pre ++ x :: post).length < fuel) :
    (os.proc_list on_process fuel s).1 = Exec.ret true ∧
    calls (os.proc_list on_process fuel s).2.2
      = (spec_visit on_process ((pre ++ post).filterMap os.node_proc) s).2 ∧
    (os.proc_list on_process fuel s).2.1
      = (spec_visit on_process ((pre ++ post).filterMap os.node_proc) s).1 ∧
    (os1.proc_list on_process fuel s).1 = Exec.ret true ∧
    calls (os.proc_list on_process fuel s).2.2 = calls (os1.proc_list on_process fuel s).2.2 ∧
    (os.proc_list on_process fuel s).2.1 = (os1.proc_list on_process fuel s).2.1 ∧
    (∀ fuel2 s2, os.reader_.read os.current_slot ≠ none →
      (os.proc_list on_process fuel2 s2).1 ≠ Exec.ret false) := by
  obtain ⟨hret, hst, hcalls⟩ :=
    proc_list_task_list os on_process anchor (pre ++ x :: post) fuel s hlist hfuel
  have hfuel1 : (pre ++ post).length < fuel := by
    simp only [List.length_append, List.length_cons] at hfuel ⊢; omega
  obtain ⟨hret1, hst1, hcalls1⟩ :=
    proc_list_task_list os1 on_process anchor1 (pre ++ post) fuel s hlist1 hfuel1
  have hx : os.node_proc x = none := (node_proc_none_iff os x).2 ⟨hmm, hamm⟩
  have hfm : (pre ++ x :: post).filterMap os.node_proc = (pre ++ post).filterMap os.node_proc := by
    simp [List.filterMap_append, List.filterMap_cons, hx]
  have hfm1 : (pre ++ post).filterMap os1.node_proc = (pre ++ post).filterMap os.node_proc :=
    List.filterMap_congr hsame
  rw [hfm] at hst hcalls
  rw [hfm1] at hst1 hcalls1
  exact ⟨hret, hcalls, hst, hret1, hcalls.trans hcalls1.symm, hst.trans hst1.symm,
    fun fuel2 s2 _ => proc_list_ne_false os on_process fuel2 s2⟩

/-- Witness of C4: in `demo_os_gap` the node at 0x4030 is unreadable; the guest with
that node absent is `demo_os`. -/
theorem proc_list_skips_unreadable_node_witness :
    demo_os_gap.is_task_list 0x1000 ([0x2030] ++ 0x4030 :: [0x3030]) = true ∧
    calls (demo_os_gap.proc_list (fun (n : Nat) _ => (walk_e.WALK_NEXT, n + 1)) 4 0).2.2
      = [(⟨0x2000, 0xB000⟩, walk_e.WALK_NEXT), (⟨0x3000, 0xC000⟩, walk_e.WALK_NEXT)] ∧
    ((demo_os_gap.proc_list (fun (n : Nat) _ => (walk_e.WALK_NEXT, n + 1)) 4 0).1 = Exec.ret true ∧
    calls (demo_os_gap.proc_list (fun (n : Nat) _ => (walk_e.WALK_NEXT, n + 1)) 4 0).2.2
      = (spec_visit (fun (n : Nat) _ => (walk_e.WALK_NEXT, n + 1))
          (([0x2030] ++ [0x3030]).filterMap demo_os_gap.node_proc) 0).2 ∧
    (demo_os_gap.proc_list (fun (n : Nat) _ => (walk_e.WALK_NEXT, n + 1)) 4 0).2.1
      = (spec_visit (fun (n : Nat) _ => (walk_e.WALK_NEXT, n + 1))
          (([0x2030] ++ [0x3030]).filterMap demo_os_gap.node_proc) 0).1 ∧
    (demo_os.proc_list (fun (n : Nat) _ => (walk_e.WALK_NEXT, n + 1)) 4 0).1 = Exec.ret true ∧
    calls (demo_os_gap.proc_list (fun (n : Nat) _ => (walk_e.WALK_NEXT, n + 1)) 4 0).2.2
      = calls (demo_os.proc_list (fun (n : Nat) _ => (walk_e.WALK_NEXT, n + 1)) 4 0).2.2 ∧
    (demo_os_gap.proc_list (fun (n : Nat) _ => (walk_e.WALK_NEXT, n + 1)) 4 0).2.1
      = (demo_os.proc_list (fun (n : Nat) _ => (walk_e.WALK_NEXT, n + 1)) 4 0).2.1 ∧
    (∀ fuel2 s2, demo_os_gap.reader_.read demo_os_gap.current_slot ≠ none →
      (demo_os_gap.proc_list (fun (n : Nat) _ => (walk_e.WALK_NEXT, n + 1)) fuel2 s2).1
        ≠ Exec.ret false)) :=
  ⟨by decide, by decide,
    proc_list_skips_unreadable_node demo_os_gap demo_os _ 0x1000 0x1000 0x4030 [0x2030] [0x3030]
      4 0 (by decide) (by decide) (by decide) (by decide) (by decide) (by decide)⟩

/-! ## `OsLinux::proc_find(uint64_t pid)` -/

/-- The closure of `proc_find` ends with the first offered process whose `proc_id` is
`pid`, or with the value `found` had before when there is none. -/
lemma spec_visit_find_pid (os : OsLinux) (pid : Nat) :
    ∀ (ps : List proc_t) (found : Option proc_t),
      (spec_visit (os.find_pid_visitor pid) ps found).1
        = match ps.find? (fun p => decide (os.proc_id p = pid)) with
          | some p => some p
          | none => found
  | [], found => by simp [spec_visit]
  | p :: ps, found => by
    by_cases h : os.proc_id p = pid
    · simp [spec_visit, OsLinux.find_pid_visitor, h]
    · simp [spec_visit, OsLinux.find_pid_visitor, h, spec_visit_find_pid os pid ps found]

/-- C5 as stated fails.  In the example guest the tasks list is well formed and contains
a node whose pid field is 1234 (the anchor, the current task at 0x1000), yet
`proc_find(1234)` returns empty.  Likewise in `demo_os_gap` the node at 0x4000 has pid 8
but an unreadable page-table root, so `proc_list` skips it and `proc_find(8)` returns
empty. -/
theorem proc_find_misses_anchor :
    demo_os.is_task_list 0x1000 [0x2030, 0x3030] = true ∧
    demo_os.node_proc 0x1030 = some ⟨0x1000, 0xA000⟩ ∧
    demo_os.reader_.le32 (wadd 0x1000 (demo_os.off TASKSTRUCT_PID)) = some 1234 ∧
    demo_os.proc_id ⟨0x1000, 0xA000⟩ = 1234 ∧
    demo_os.proc_find 10 1234 = Exec.ret none ∧
    demo_os_gap.is_task_list 0x1000 [0x2030, 0x4030, 0x3030] = true ∧
    demo_os_gap.reader_.le32 (wadd 0x4000 (demo_os_gap.off TASKSTRUCT_PID)) = some 8 ∧
    demo_os_gap.node_proc 0x4030 = none ∧
    demo_os_gap.proc_find 10 8 = Exec.ret none := by
  decide

/-- C5, amended.  On a well-formed tasks list, with fuel for the list, `proc_find(pid)`
returns the first process, in list order, among the tasks other than the anchor whose
page-table root is readable (the processes `proc_list` offers) whose `proc_id` equals
`pid`: if there is such a task the result is a process with `proc_id` equal to `pid`; if
there is none the result is empty. -/
theorem proc_find_first_listed (os : OsLinux) (anchor : Nat) (nodes : List Nat) (fuel pid : Nat)
    (hlist : os.is_task_list anchor nodes = true) (hfuel : nodes.length < fuel) :
    os.proc_find fuel pid
      = Exec.ret ((nodes.filterMap os.node_proc).find? (fun p => decide (os.proc_id p = pid))) ∧
    ((∃ p ∈ nodes.filterMap os.node_proc, os.proc_id p = pid) →
      ∃ p, os.proc_find fuel pid = Exec.ret (some p) ∧ os.proc_id p = pid ∧
        p ∈ nodes.filterMap os.node_proc) ∧
    ((∀ p ∈ nodes.filterMap os.node_proc, os.proc_id p ≠ pid) →
      os.proc_find fuel pid = Exec.ret none) := by
  obtain ⟨hret, hst, -⟩ :=
    proc_list_task_list os (os.find_pid_visitor pid) anchor nodes fuel none hlist hfuel
  have hfind : os.proc_find fuel pid
      = Exec.ret ((nodes.filterMap os.node_proc).find? (fun p => decide (os.proc_id p = pid))) := by
    unfold OsLinux.proc_find
    rcases hr : os.proc_list (os.find_pid_visitor pid) fuel none with ⟨r, found, evs⟩
    rw [hr] at hret hst
    simp only [] at hret hst
    subst hret
    simp only [hst, spec_visit_find_pid]
    cases (nodes.filterMap os.node_proc).find? (fun p => decide (os.proc_id p = pid)) <;> rfl
  refine ⟨hfind, ?_, ?_⟩
  · rintro ⟨p, hp, hpid⟩
    cases hf : (nodes.filterMap os.node_proc).find? (fun p => decide (os.proc_id p = pid)) with
    | none =>
      have := List.find?_eq_none.1 hf p hp
      simp [hpid] at this
    | some q =>
      refine ⟨q, by rw [hfind, hf], ?_, List.mem_of_find?_eq_some hf⟩
      simpa using List.find?_some hf
  · intro hnone
    rw [hfind]
    congr 1
    exact List.find?_eq_none.2 (fun p hp => by simpa using hnone p hp)

/-- Witness of the amended C5: a list containing a node with pid 1234 (the task at
0x3000 of `demo_os_gap`). -/
theorem proc_find_first_listed_witness :
    demo_os_gap.is_task_list 0x1000 [0x2030, 0x4030, 0x3030] = true ∧
    demo_os_gap.proc_find 4 1234 = Exec.ret (some ⟨0x3000, 0xC000⟩) ∧
    demo_os_gap.proc_id ⟨0x3000, 0xC000⟩ = 1234 ∧
    (demo_os_gap.proc_find 4 1234
      = Exec.ret (([0x2030, 0x4030, 0x3030].filterMap demo_os_gap.node_proc).find?
          (fun p => decide (demo_os_gap.proc_id p = 1234))) ∧
    ((∃ p ∈ [0x2030, 0x4030, 0x3030].filterMap demo_os_gap.node_proc,
        demo_os_gap.proc_id p = 1234) →
      ∃ p, demo_os_gap.proc_find 4 1234 = Exec.ret (some p) ∧ demo_os_gap.proc_id p = 1234 ∧
        p ∈ [0x2030, 0x4030, 0x3030].filterMap demo_os_gap.node_proc) ∧
    ((∀ p ∈ [0x2030, 0x4030, 0x3030].filterMap demo_os_gap.node_proc,
        demo_os_gap.proc_id p ≠ 1234) →
      demo_os_gap.proc_find 4 1234 = Exec.ret none)) :=
  ⟨by decide, by decide, by decide,
    proc_find_first_listed demo_os_gap 0x1000 [0x2030, 0x4030, 0x3030] 4 1234 (by decide)
      (by decide)⟩

end Icebox

namespace Icebox

/-! ## `OsLinux::proc_name` -/

lemma read_bytes_length (r : Reader) :
    ∀ (n ptr : Nat) (bs : List Nat), r.read_bytes ptr n = some bs → bs.length = n
  | 0, _, bs, h => by
    simp only [Reader.read_bytes, Option.some.injEq] at h
    simp [← h]
  | n + 1, ptr, bs, h => by
    unfold Reader.read_bytes at h
    cases hm : r.mem ptr with
    | none => simp [hm] at h
    | some b =>
      cases hr : r.read_bytes (ptr + 1) n with
      | none => simp [hm, hr] at h
      | some rest =>
        simp only [hm, hr, Option.some.injEq] at h
        simp [← h, read_bytes_length r n (ptr + 1) rest hr]

/-- A successful read of `n + 1` bytes contains the successful read of the first `n`. -/
lemma read_bytes_take (r : Reader) :
    ∀ (n ptr : Nat) (bs : List Nat), r.read_bytes ptr (n + 1) = some bs →
      r.read_bytes ptr n = some (bs.take n)
  | 0, _, _, _ => by simp [Reader.read_bytes]
  | n + 1, ptr, bs, h => by
    rw [Reader.read_bytes] at h
    cases hm : r.mem ptr with
    | none => simp [hm] at h
    | some b =>
      cases hr : r.read_bytes (ptr + 1) (n + 1) with
      | none => simp [hm, hr] at h
      | some rest =>
        simp only [hm, hr, Option.some.injEq] at h
        rw [Reader.read_bytes]
        simp [hm, read_bytes_take r n (ptr + 1) rest hr, ← h]

/-- The raw read depends only on the bytes of the range read. -/
lemma read_bytes_congr (r r1 : Reader) :
    ∀ (n ptr : Nat), (∀ i, i < n → r1.mem (ptr + i) = r.mem (ptr + i)) →
      r1.read_bytes ptr n = r.read_bytes ptr n
  | 0, _, _ => by simp [Reader.read_bytes]
  | n + 1, ptr, h => by
    rw [Reader.read_bytes, Reader.read_bytes]
    have h0 : r1.mem ptr = r.mem ptr := by simpa using h 0 (by omega)
    have hrest : r1.read_bytes (ptr + 1) n = r.read_bytes (ptr + 1) n :=
      read_bytes_congr r r1 n (ptr + 1) (fun i hi => by
        have := h (i + 1) (by omega)
        rwa [show ptr + (i + 1) = ptr + 1 + i by omega] at this)
    rw [h0, hrest]

lemma takeWhile_append_stop {α : Type} (p : α → Bool) (z : α) (hz : p z = false) :
    ∀ l : List α, (l ++ [z]).takeWhile p = l.takeWhile p
  | [] => by simp [List.takeWhile, hz]
  | a :: l => by
    cases ha : p a <;> simp [List.takeWhile, ha, takeWhile_append_stop p z hz l]

/-- The C string held by the 21-byte buffer after its last byte was set to zero. -/
lemma buffer_name (bytes : List Nat) (h : bytes.length = 21) :
    (bytes.set 20 0).takeWhile (fun c => decide (c ≠ 0))
      = (bytes.take 20).takeWhile (fun c => decide (c ≠ 0)) := by
  have hset : bytes.set 20 0 = bytes.take 20 ++ [0] := by
    rw [List.set_eq_take_append_cons_drop]
    simp [h, List.drop_eq_nil_of_le]
  rw [hset, takeWhile_append_stop _ 0 (by simp)]

/-- C6 as stated fails.  The guest `demo_name_guest 20` holds a readable, non-terminated
20-byte name at `task_struct.comm` and nothing readable after it: `proc_name` requests 21
bytes, the read fails, and the result is empty with no diagnostic.  In the guest
`demo_name_guest 21`, which differs only in the guest byte at offset 20, the result is
the 20 bytes with the diagnostic: the byte past the 20-byte bound is read. -/
theorem proc_name_reads_21_bytes :
    (demo_name_guest 20).reader_.read_bytes
        (wadd 0x1000 ((demo_name_guest 20).off TASKSTRUCT_COMM)) 20
      = some (List.replicate 20 0x41) ∧
    (demo_name_guest 20).proc_name ⟨0x1000, 0⟩ = (none, [Ev.read_buf 0x1010 21]) ∧
    (demo_name_guest 21).proc_name ⟨0x1000, 0⟩
      = (some (List.replicate 20 0x41), [Ev.read_buf 0x1010 21, Ev.log_name_buffer_too_small]) := by
  decide

/-- C6, amended.  `proc_name` performs a single guest read, of the 21 bytes (`sizeof
buffer`) at `proc.id + offsets_[TASKSTRUCT_COMM]`.  If that read fails the result is
empty.  Otherwise the first 20 of the bytes read are the guest bytes at `comm`, and the
result is those bytes up to, not including, the first NUL, at most 20 bytes; when none of
the 20 is NUL the result is exactly those 20 bytes and the diagnostic is logged.  The
outcome depends on no guest byte outside the 21 bytes at offsets 0..20. -/
theorem proc_name_reads_buffer (os : OsLinux) (proc : proc_t) :
    reads (os.proc_name proc).2 = [wadd proc.id (os.off TASKSTRUCT_COMM)] ∧
    (∀ e ∈ (os.proc_name proc).2,
      e = Ev.read_buf (wadd proc.id (os.off TASKSTRUCT_COMM)) 21 ∨
      e = Ev.log_name_buffer_too_small) ∧
    (os.reader_.read_bytes (wadd proc.id (os.off TASKSTRUCT_COMM)) 21 = none →
      (os.proc_name proc).1 = none) ∧
    (∀ bytes, os.reader_.read_bytes (wadd proc.id (os.off TASKSTRUCT_COMM)) 21 = some bytes →
      os.reader_.read_bytes (wadd proc.id (os.off TASKSTRUCT_COMM)) 20 = some (bytes.take 20) ∧
      (os.proc_name proc).1 = some ((bytes.take 20).takeWhile (fun c => decide (c ≠ 0))) ∧
      ((bytes.take 20).takeWhile (fun c => decide (c ≠ 0))).length ≤ 20 ∧
      ((∀ c ∈ bytes.take 20, c ≠ 0) →
        os.proc_name proc
          = (some (bytes.take 20),
              [Ev.read_buf (wadd proc.id (os.off TASKSTRUCT_COMM)) 21,
                Ev.log_name_buffer_too_small]))) ∧
    (∀ os1 : OsLinux, os1.off TASKSTRUCT_COMM = os.off TASKSTRUCT_COMM →
      (∀ i, i < 21 →
        os1.reader_.mem (wadd proc.id (os.off TASKSTRUCT_COMM) + i)
          = os.reader_.mem (wadd proc.id (os.off TASKSTRUCT_COMM) + i)) →
      os1.proc_name proc = os.proc_name proc) := by
  refine ⟨?_, ?_, ?_, ?_, ?_⟩
  · unfold OsLinux.proc_name
    simp only []
    split
    · simp [reads]
    · split <;> simp [reads]
  · unfold OsLinux.proc_name
    simp only []
    split
    · simp
    · split <;> simp
  · intro h
    simp [OsLinux.proc_name, h]
  · intro bytes h
    have hlen := read_bytes_length _ _ _ _ h
    have hname := buffer_name bytes hlen
    have hle : ((bytes.take 20).takeWhile (fun c => decide (c ≠ 0))).length ≤ 20 :=
      le_trans (List.Sublist.length_le (List.takeWhile_sublist _)) (by simp)
    refine ⟨read_bytes_take _ 20 _ bytes h, ?_, hle, ?_⟩
    · unfold OsLinux.proc_name
      simp only [h, hname]
      split <;> rfl
    · intro hall
      have htw : (bytes.take 20).takeWhile (fun c => decide (c ≠ 0)) = bytes.take 20 :=
        List.takeWhile_eq_self_iff.2 (fun c hc => by simpa using hall c hc)
      unfold OsLinux.proc_name
      simp only [h, hname, htw]
      simp [hlen]
  · intro os1 hoff hmem
    have hb := read_bytes_congr os.reader_ os1.reader_ 21 _ hmem
    unfold OsLinux.proc_name
    simp only [hoff, hb]

end Icebox

namespace Icebox

/-! ## `GenericMonitor::setup_all` -/

/-- The breakpoints and log lines the loop of `setup_all` adds. -/
lemma setup_all_foldl {γ : Type} (symbol : String → String → Option Nat) (proc : proc_t) (g : γ) :
    ∀ (functions : List OnFunction) (st : GenericMonitor γ × List MonLog),
      (functions.foldl (setup_all_step symbol proc g) st).1.bps
        = st.1.bps ++ functions.filterMap (fun f => (symbol dll f.name).map (fun a =>
            ({ addr := a, proc := proc, filter := filter_e.FILTER_CR3, task := Task.generic g }
              : Breakpoint γ))) ∧
      (functions.foldl (setup_all_step symbol proc g) st).2
        = st.2 ++ (functions.filter (fun f => (symbol dll f.name).isNone)).map
            (fun f => MonLog.unable_to_find_symbol f.name)
  | [], st => by simp
  | f :: fs, st => by
    have ih := setup_all_foldl symbol proc g fs (setup_all_step symbol proc g st f)
    rw [List.foldl_cons, ih.1, ih.2]
    cases h : symbol dll f.name with
    | none => simp [setup_all_step, h]
    | some a => simp [setup_all_step, h]

/-- C7. `GenericMonitor::setup_all` over a table of N entries of which M resolve
(`M = countP` of the resolving entries): it returns true; the breakpoint list grows by
exactly one breakpoint per resolving entry, in table order, each at the resolved
address, for the given process with `FILTER_CR3`, running the generic dispatcher; that
is M breakpoints; and exactly N - M resolution failures are logged, one per entry that
does not resolve, in table order.  With M = 0 the breakpoint list is unchanged and the
result is still true. -/
theorem setup_all_installs_resolvable {γ : Type} (symbol : String → String → Option Nat)
    (functions : List OnFunction) (m : GenericMonitor γ) (proc : proc_t) (g : γ) :
    (GenericMonitor.setup_all symbol functions m proc g).1 = true ∧
    (GenericMonitor.setup_all symbol functions m proc g).2.1.bps
      = m.bps ++ functions.filterMap (fun f => (symbol dll f.name).map (fun a =>
          ({ addr := a, proc := proc, filter := filter_e.FILTER_CR3, task := Task.generic g }
            : Breakpoint γ))) ∧
    (GenericMonitor.setup_all symbol functions m proc g).2.1.bps.length
      = m.bps.length + functions.countP (fun f => (symbol dll f.name).isSome) ∧
    (GenericMonitor.setup_all symbol functions m proc g).2.2
      = (functions.filter (fun f => (symbol dll f.name).isNone)).map
          (fun f => MonLog.unable_to_find_symbol f.name) ∧
    (GenericMonitor.setup_all symbol functions m proc g).2.2.length
      = functions.length - functions.countP (fun f => (symbol dll f.name).isSome) ∧
    (functions.countP (fun f => (symbol dll f.name).isSome) = 0 →
      (GenericMonitor.setup_all symbol functions m proc g).2.1.bps = m.bps) := by
  have h := setup_all_foldl symbol proc g functions (m, [])
  have hcount : ∀ fs : List OnFunction,
      (fs.filterMap (fun f => (symbol dll f.name).map (fun a =>
          ({ addr := a, proc := proc, filter := filter_e.FILTER_CR3, task := Task.generic g }
            : Breakpoint γ)))).length
        = fs.countP (fun f => (symbol dll f.name).isSome) := by
    intro fs
    induction fs with
    | nil => rfl
    | cons f fs ih =>
      cases hf : symbol dll f.name <;> simp [List.filterMap_cons, List.countP_cons, hf, ih]
  have hnone : ∀ fs : List OnFunction,
      (fs.filter (fun f => (symbol dll f.name).isNone)).length
        = fs.length - fs.countP (fun f => (symbol dll f.name).isSome) := by
    intro fs
    induction fs with
    | nil => rfl
    | cons f fs ih =>
      have hle := List.countP_le_length (fun f => (symbol dll f.name).isSome) (l := fs)
      cases hf : symbol dll f.name
      · simp [List.filter_cons, List.countP_cons, hf, ih]; omega
      · simp [List.filter_cons, List.countP_cons, hf, ih]
  refine ⟨rfl, h.1, ?_, by simpa using h.2, ?_, ?_⟩
  · simp only [GenericMonitor.setup_all, h.1, List.length_append, hcount]
  · simp only [GenericMonitor.setup_all, h.2, List.nil_append, List.length_map, hnone]
  · intro h0
    have hl := hcount functions
    rw [h0] at hl
    simp only [GenericMonitor.setup_all, h.1, List.eq_nil_of_length_eq_zero hl, List.append_nil]

/-! ## `GenericMonitor::setup_func` -/

/-- The outcome of `setup_func` in terms of the first table entry named `fname`. -/
lemma setup_func_find {γ : Type} (symbol : String → String → Option Nat) (m : GenericMonitor γ)
    (proc : proc_t) (fname : String) :
    ∀ functions : List OnFunction,
      GenericMonitor.setup_func symbol functions m proc fname
        = match functions.find? (fun f => decide (f.name = fname)) with
          | none => (false, m, [])
          | some f =>
            match symbol dll f.name with
            | none => (false, m, [MonLog.unable_to_find_symbol f.name])
            | some a =>
              (true,
                { bps := m.bps ++
                    [{ addr := a, proc := proc, filter := filter_e.FILTER_CR3,
                       task := Task.member f.on_function }] }, [])
  | [] => by simp [GenericMonitor.setup_func]
  | f :: fs => by
    by_cases h : fname = f.name
    · subst h
      simp [GenericMonitor.setup_func, FAIL]
    · have h1 : ¬ f.name = fname := fun e => h e.symm
      simp [GenericMonitor.setup_func, h, h1, setup_func_find symbol m proc fname fs]

/-- C8. `GenericMonitor::setup_func` returns true exactly when `fname` is the name of a
table entry and the symbol of that name resolves.  In that case exactly one breakpoint
is appended: at the resolved address, for the given process with `FILTER_CR3`, running
the member function of the first table entry of that name (not a generic dispatcher).
When it returns false (the name is not in the table, or its symbol does not resolve)
the monitor, hence its breakpoint list, is unchanged. -/
theorem setup_func_true_iff {γ : Type} (symbol : String → String → Option Nat)
    (functions : List OnFunction) (m : GenericMonitor γ) (proc : proc_t) (fname : String) :
    ((GenericMonitor.setup_func symbol functions m proc fname).1 = true ↔
      (∃ f ∈ functions, f.name = fname) ∧ (symbol dll fname).isSome = true) ∧
    ((GenericMonitor.setup_func symbol functions m proc fname).1 = true →
      ∃ f a, functions.find? (fun f => decide (f.name = fname)) = some f ∧
        symbol dll fname = some a ∧
        (GenericMonitor.setup_func symbol functions m proc fname).2.1.bps
          = m.bps ++ [{ addr := a, proc := proc, filter := filter_e.FILTER_CR3,
                        task := Task.member f.on_function }]) ∧
    ((GenericMonitor.setup_func symbol functions m proc fname).1 = false →
      (GenericMonitor.setup_func symbol functions m proc fname).2.1 = m) ∧
    ((∃ f ∈ functions, f.name = fname) → symbol dll fname = none →
      (GenericMonitor.setup_func symbol functions m proc fname)
        = (false, m, [MonLog.unable_to_find_symbol fname])) ∧
    ((∀ f ∈ functions, f.name ≠ fname) →
      (GenericMonitor.setup_func symbol functions m proc fname) = (false, m, [])) := by
  rw [setup_func_find symbol m proc fname functions]
  cases hf : functions.find? (fun f => decide (f.name = fname)) with
  | none =>
    have hno : ∀ f ∈ functions, ¬ f.name = fname := fun f hm => by
      simpa using List.find?_eq_none.1 hf f hm
    refine ⟨?_, by simp, by simp, ?_, by simp⟩
    · simp only [Bool.false_eq_true, false_iff, not_and]
      rintro ⟨f, hm, hn⟩
      exact absurd hn (hno f hm)
    · rintro ⟨f, hm, hn⟩
      exact absurd hn (hno f hm)
  | some f =>
    have hname : f.name = fname := by simpa using List.find?_some hf
    have hmem : f ∈ functions := List.mem_of_find?_eq_some hf
    subst hname
    cases hs : symbol dll f.name with
    | none =>
      simp only [hs]
      refine ⟨by simp, by simp, by simp, by simp, ?_⟩
      intro hall
      exact absurd rfl (hall f hmem)
    | some a =>
      simp only [hs]
      refine ⟨?_, ?_, by simp, by simp, ?_⟩
      · simp only [true_iff]
        exact ⟨⟨f, hmem, rfl⟩, by simp⟩
      · intro _
        exact ⟨f, a, rfl, rfl, rfl⟩
      · intro hall
        exact absurd rfl (hall f hmem)

end Icebox

namespace Icebox

/-! ## `GenericMonitor::get_raw_args` -/

/-- The loop of `get_raw_args` from position `j` with `todo` positions left, in a run
that dereferences no empty `opt`. -/
lemma get_raw_args_from_spec {σ : Type} (get_arg : Nat → Option Nat)
    (on_arg : σ → Nat → walk_e × σ) :
    ∀ (todo j : Nat) (s : σ),
      (get_raw_args_from get_arg on_arg todo j s).1 ≠ Exec.undefined →
      (get_raw_args_from get_arg on_arg todo j s).1 = Exec.ret true ∧
      (∃ k, k ≤ todo ∧
        arg_calls (get_raw_args_from get_arg on_arg todo j s).2.2 = List.range' j k ∧
        arg_reads (get_raw_args_from get_arg on_arg todo j s).2.2 = List.range' j k) ∧
      (∀ i a v, ArgEv.on_arg i a v ∈ (get_raw_args_from get_arg on_arg todo j s).2.2 →
        get_arg i = some a) ∧
      (∀ pre post i a, (get_raw_args_from get_arg on_arg todo j s).2.2
          = pre ++ ArgEv.on_arg i a walk_e.WALK_STOP :: post → post = []) ∧
      ((∀ i a, ArgEv.on_arg i a walk_e.WALK_STOP
          ∉ (get_raw_args_from get_arg on_arg todo j s).2.2) →
        arg_calls (get_raw_args_from get_arg on_arg todo j s).2.2 = List.range' j todo)
  | 0, j, s, _ => by
    refine ⟨rfl, ⟨0, le_refl _, rfl, rfl⟩, ?_, ?_, ?_⟩
    · intro i a v h; simp [get_raw_args_from] at h
    · intro pre post i a h; simp [get_raw_args_from] at h
    · intro _; rfl
  | todo + 1, j, s, hdef => by
    unfold get_raw_args_from at hdef ⊢
    cases harg : get_arg j with
    | none => simp [harg] at hdef
    | some arg =>
      simp only [harg] at hdef ⊢
      revert hdef
      rcases hv : on_arg s arg with ⟨_ | _, s1⟩
      · intro _
        simp only []
        refine ⟨trivial, ⟨1, by omega, by simp [arg_calls], by simp [arg_reads]⟩, ?_, ?_, ?_⟩
        · intro i a v h
          simp only [List.mem_cons, ArgEv.on_arg.injEq, List.mem_singleton, false_or,
            reduceCtorEq, List.not_mem_nil, or_false] at h
          obtain ⟨hi, ha, -⟩ := h
          rw [hi, ha]; exact harg
        · intro pre post i a h
          obtain ⟨pre1, h1⟩ := split_after _ post [ArgEv.on_arg j arg walk_e.WALK_STOP]
            [ArgEv.get_arg_by_index j] pre (by simp) h
          have hlen := congrArg List.length h1
          simp only [List.length_cons, List.length_nil, List.length_append] at hlen
          exact List.eq_nil_of_length_eq_zero (by omega)
        · intro hno
          exact absurd (by simp) (hno j arg)
      · intro hdef
        simp only [] at hdef
        have ih := get_raw_args_from_spec get_arg on_arg todo (j + 1) s1 hdef
        obtain ⟨ih1, ⟨k, hk, hc, hr⟩, ih3, ih4, ih5⟩ := ih
        simp only []
        refine ⟨ih1, ⟨k + 1, by omega, ?_, ?_⟩, ?_, ?_, ?_⟩
        · simp [arg_calls, hc, List.range'_succ]
        · simp [arg_reads, hr, List.range'_succ]
        · intro i a v h
          simp only [List.mem_cons, reduceCtorEq, ArgEv.on_arg.injEq, false_or] at h
          rcases h with ⟨hi, ha, -⟩ | h
          · rw [hi, ha]; exact harg
          · exact ih3 i a v h
        · intro pre post i a h
          obtain ⟨pre1, h1⟩ := split_after _ post _
            [ArgEv.get_arg_by_index j, ArgEv.on_arg j arg walk_e.WALK_NEXT] pre (by simp) h
          exact ih4 pre1 post i a h1
        · intro hno
          have := ih5 (fun i a hm => hno i a (by simp [hm]))
          simp [arg_calls, this, List.range'_succ]

/-- C9, the code at the failing input.  With one argument requested and the argument at
position 0 unreadable, `get_raw_args` evaluates `*arg` on the empty result of
`get_arg_by_index`: the run is undefined, it does not return true, and `on_arg` receives
no argument read at position 0.  With the same callback and a readable argument the
run is the claimed one: one read, one call with the argument read, result true. -/
theorem get_raw_args_unreadable_argument :
    (GenericMonitor.get_raw_args (fun _ => none) 1
        (fun (n : Nat) _ => (walk_e.WALK_NEXT, n + 1)) 0)
      = (Exec.undefined, 0, [ArgEv.get_arg_by_index 0]) ∧
    (GenericMonitor.get_raw_args (fun _ => none) 1
        (fun (n : Nat) _ => (walk_e.WALK_NEXT, n + 1)) 0).1 ≠ Exec.ret true ∧
    (GenericMonitor.get_raw_args (fun j => some (100 + j)) 1
        (fun (n : Nat) _ => (walk_e.WALK_NEXT, n + 1)) 0)
      = (Exec.ret true, 1,
          [ArgEv.get_arg_by_index 0, ArgEv.on_arg 0 100 walk_e.WALK_NEXT]) := by
  decide

/-- Every run of `get_raw_args` that dereferences no empty `opt` behaves as specified:
it returns true; it reads and passes to `on_arg` the arguments at positions
`0, 1, ..., k - 1` for some `k ≤ nargs`, in increasing order and each once, every call
receiving the argument read at its position; a call answered `WALK_STOP` is the last
event (no later argument is read); without such a call all `nargs` positions are
visited; with `nargs = 0` nothing is read or called. -/
lemma get_raw_args_defined_run {σ : Type} (get_arg : Nat → Option Nat) (nargs : Nat)
    (on_arg : σ → Nat → walk_e × σ) (s : σ)
    (hdef : (GenericMonitor.get_raw_args get_arg nargs on_arg s).1 ≠ Exec.undefined) :
    (GenericMonitor.get_raw_args get_arg nargs on_arg s).1 = Exec.ret true ∧
    (∃ k, k ≤ nargs ∧
      arg_calls (GenericMonitor.get_raw_args get_arg nargs on_arg s).2.2 = List.range k ∧
      arg_reads (GenericMonitor.get_raw_args get_arg nargs on_arg s).2.2 = List.range k) ∧
    (∀ j a v, ArgEv.on_arg j a v ∈ (GenericMonitor.get_raw_args get_arg nargs on_arg s).2.2 →
      get_arg j = some a) ∧
    (∀ pre post j a, (GenericMonitor.get_raw_args get_arg nargs on_arg s).2.2
        = pre ++ ArgEv.on_arg j a walk_e.WALK_STOP :: post → post = []) ∧
    ((∀ j a, ArgEv.on_arg j a walk_e.WALK_STOP
        ∉ (GenericMonitor.get_raw_args get_arg nargs on_arg s).2.2) →
      arg_calls (GenericMonitor.get_raw_args get_arg nargs on_arg s).2.2 = List.range nargs) ∧
    (nargs = 0 → (GenericMonitor.get_raw_args get_arg nargs on_arg s).2.2 = []) := by
  have h := get_raw_args_from_spec get_arg on_arg nargs 0 s hdef
  simp only [← List.range_eq_range'] at h
  obtain ⟨h1, h2, h3, h4, h5⟩ := h
  refine ⟨h1, h2, h3, h4, h5, ?_⟩
  intro h0
  subst h0
  rfl

/-- Concrete runs of `get_raw_args`: four readable arguments with `on_arg` stopping at
its third call; and three requested arguments of which the one at position 2 is
unreadable, with `on_arg` stopping at position 0, so that the failing read is never
reached. -/
lemma get_raw_args_demo :
    (GenericMonitor.get_raw_args (fun j => some (100 + j)) 4
        (fun (n : Nat) _ => (if n = 2 then walk_e.WALK_STOP else walk_e.WALK_NEXT, n + 1)) 0)
      = (Exec.ret true, 3,
          [ArgEv.get_arg_by_index 0, ArgEv.on_arg 0 100 walk_e.WALK_NEXT,
            ArgEv.get_arg_by_index 1, ArgEv.on_arg 1 101 walk_e.WALK_NEXT,
            ArgEv.get_arg_by_index 2, ArgEv.on_arg 2 102 walk_e.WALK_STOP]) ∧
    (GenericMonitor.get_raw_args (fun j => if j = 2 then none else some (100 + j)) 3
        (fun (n : Nat) _ => (walk_e.WALK_STOP, n + 1)) 0)
      = (Exec.ret true, 1,
          [ArgEv.get_arg_by_index 0, ArgEv.on_arg 0 100 walk_e.WALK_STOP]) := by
  decide

/-! ## `OsLinux::proc_current` -/

/-- When the current-task slot is readable, `proc_current` returns the process whose id
is the value read, with the kernel dtb of the reader. -/
lemma proc_current_readable (os : OsLinux) (v : Nat)
    (h : os.reader_.read os.current_slot = some v) :
    os.proc_current = (Exec.ret (some { id := v, dtb := os.reader_.kdtb_ }),
      [Ev.read os.current_slot]) := by
  unfold OsLinux.current_slot at h
  simp [OsLinux.proc_current, OsLinux.current_slot, h]

/-- The result of `proc_current` is never the empty `opt`: a failed read ends in the
dereference of an empty `opt`. -/
lemma proc_current_unreadable (os : OsLinux) (h : os.reader_.read os.current_slot = none) :
    os.proc_current = (Exec.undefined, [Ev.read os.current_slot]) := by
  unfold OsLinux.current_slot at h
  simp [OsLinux.proc_current, OsLinux.current_slot, h]

/-- With an unreadable current-task slot `proc_list` does not return false either; the
visitor is not called. -/
lemma proc_list_unreadable_anchor {σ : Type} (os : OsLinux)
    (on_process : σ → proc_t → walk_e × σ) (fuel : Nat) (s : σ)
    (h : os.reader_.read os.current_slot = none) :
    os.proc_list on_process fuel s = (Exec.undefined, s, [Ev.read os.current_slot]) := by
  simp [OsLinux.proc_list, proc_current_unreadable os h]

/-- C10, the code at the failing input.  In the guest `demo_os_no_current` the read of the
current-task slot at GS base + `current_task` = 0x108 fails.  `proc_current` does not
return empty: it dereferences the empty `opt` (undefined behaviour); and `proc_list`,
whose test of the anchor can therefore never fire, does not return false.  In the guest
`demo_os`, where the slot holds 0x1000, `proc_current` returns the process with id 0x1000
and the kernel dtb of the reader. -/
theorem proc_current_dereferences_failed_read :
    demo_os_no_current.reader_.read demo_os_no_current.current_slot = none ∧
    demo_os_no_current.proc_current = (Exec.undefined, [Ev.read 0x108]) ∧
    demo_os_no_current.proc_current.1 ≠ Exec.ret none ∧
    (demo_os_no_current.proc_list (fun (n : Nat) _ => (walk_e.WALK_NEXT, n + 1)) 10 0)
      = (Exec.undefined, 0, [Ev.read 0x108]) ∧
    (demo_os_no_current.proc_list (fun (n : Nat) _ => (walk_e.WALK_NEXT, n + 1)) 10 0).1
      ≠ Exec.ret false ∧
    demo_os.proc_current
      = (Exec.ret (some { id := 0x1000, dtb := demo_os.reader_.kdtb_ }), [Ev.read 0x108]) := by
  decide

end Icebox

namespace Icebox

/-! ## Concrete runs -/

/-- With every entry resolving `setup` returns true and fills both tables; with the
member `pid` missing it returns false and logs the miss. -/
lemma setup_demo :
    (demo_os.setup (demo_env "")).1 = true ∧
    (demo_os.setup (demo_env "")).2.1.symbols_ = [0x8] ∧
    (demo_os.setup (demo_env "")).2.1.offsets_ = List.replicate 11 0x30 ∧
    (demo_os.setup (demo_env "pid")).1 = false ∧
    (demo_os.setup (demo_env "pid")).2.1.offsets_
      = [0x30, 0x30, 0, 0x30, 0x30, 0x30, 0x30, 0x30, 0x30, 0x30, 0x30] := by
  decide

/-- On the example table `setup_all` installs the two resolving entries and logs the
third; `setup_func` succeeds for a resolving name only. -/
lemma monitor_demo :
    ((GenericMonitor.setup_all demo_symbol demo_functions ⟨[]⟩ ⟨0x2000, 0xB000⟩ ()).2.1.bps.map
        (fun b => b.addr)) = [0x7000, 0x7100] ∧
    (GenericMonitor.setup_all demo_symbol demo_functions ⟨[]⟩ ⟨0x2000, 0xB000⟩ ()).2.2
      = [MonLog.unable_to_find_symbol "NtClose"] ∧
    (GenericMonitor.setup_func demo_symbol demo_functions (⟨[]⟩ : GenericMonitor Unit) ⟨0x2000, 0xB000⟩
        "NtWriteFile").1 = true ∧
    ((GenericMonitor.setup_func demo_symbol demo_functions (⟨[]⟩ : GenericMonitor Unit) ⟨0x2000, 0xB000⟩
        "NtWriteFile").2.1.bps.map (fun b => b.addr)) = [0x7100] ∧
    (GenericMonitor.setup_func demo_symbol demo_functions (⟨[]⟩ : GenericMonitor Unit) ⟨0x2000, 0xB000⟩
        "NtClose").1 = false ∧
    (GenericMonitor.setup_func demo_symbol demo_functions (⟨[]⟩ : GenericMonitor Unit) ⟨0x2000, 0xB000⟩
        "NtReadFile").1 = false := by
  decide

end Icebox

namespace Icebox

/-! ## `sym::Loader`: the module-create listener -/

/-- The insertions of `load_module`: exactly one, of the bytes read and under the file
name of the module, when the name resolves, the predicate accepts it, span and
descriptor are found, the descriptor is not empty and the guest read succeeds; none
otherwise.  The store changes only through an insertion. -/
lemma load_module_spec {S : Type} (core : LoaderCore S) (d : Data S) (mod : mod_t)
    (pred : mod_t → String → Bool) :
    (∀ n sp blob, LoadEv.insert n sp blob ∈ (load_module core d mod pred).2.2 ↔
      ∃ name debug, core.mod_name d.proc mod = some name ∧ pred mod name = true ∧
        core.mod_span d.proc mod = some sp ∧
        core.find_debug_codeview d.reader sp = some debug ∧ debug.size ≠ 0 ∧
        d.reader.read_bytes debug.addr debug.size = some blob ∧ n = core.filename name) ∧
    ((load_module core d mod pred).2.1.symbols ≠ d.symbols →
      ∃ n sp blob, LoadEv.insert n sp blob ∈ (load_module core d mod pred).2.2) := by
  unfold load_module
  cases hn : core.mod_name d.proc mod with
  | none => simp
  | some name =>
    by_cases hp : pred mod name = true
    swap
    · simp [hp]
    unfold load_module_named
    cases hs : core.mod_span d.proc mod with
    | none => simp [hp]
    | some span =>
      unfold load_module_buffer
      cases hd : core.find_debug_codeview d.reader span with
      | none =>
        simp only [hp, hd, Bool.not_true, Bool.false_eq_true, if_false]
        refine ⟨fun n sp blob => ⟨fun h => by simp at h, ?_⟩, fun h => by simp at h⟩
        rintro ⟨nm, dbg, -, -, h3, h4, -⟩
        cases h3
        rw [hd] at h4
        cases h4
      | some debug =>
        by_cases hz : debug.size = 0
        · simp only [hp, hd, hz, Bool.not_true, Bool.false_eq_true, if_false, if_true]
          refine ⟨fun n sp blob => ⟨fun h => by simp at h, ?_⟩, fun h => by simp at h⟩
          rintro ⟨nm, dbg, -, -, h3, h4, h5, -⟩
          cases h3
          rw [hd] at h4
          cases h4
          exact absurd hz h5
        · cases hr : d.reader.read_bytes debug.addr debug.size with
          | none =>
            simp only [hp, hd, hr, hz, Bool.not_true, Bool.false_eq_true, if_false]
            refine ⟨fun n sp blob => ⟨fun h => by simp at h, ?_⟩, fun h => by simp at h⟩
            rintro ⟨nm, dbg, -, -, h3, h4, -, h6, -⟩
            cases h3
            rw [hd] at h4
            cases h4
            rw [hr] at h6
            cases h6
          | some bytes =>
            simp only [hp, hd, hr, hz, Bool.not_true, Bool.false_eq_true, if_false]
            cases hi : (core.insert d.symbols (core.filename name) span bytes).1
            all_goals
              simp only [hi]
              refine ⟨fun n sp blob => ⟨fun h => ?_, ?_⟩,
                fun _ => ⟨core.filename name, span, bytes, by simp⟩⟩
              · simp only [List.cons_append, List.nil_append, List.mem_cons, reduceCtorEq,
                  LoadEv.insert.injEq, List.mem_singleton, List.not_mem_nil, or_false,
                  false_or] at h
                obtain ⟨h1, h2, h3⟩ := h
                subst h1 h2 h3
                exact ⟨name, debug, rfl, hp, rfl, hd, hz, hr, rfl⟩
              · rintro ⟨nm, dbg, h1, -, h3, h4, -, h6, h7⟩
                cases h1
                cases h3
                rw [hd] at h4
                cases h4
                rw [hr] at h6
                cases h6
                simp [h7]

/-- Apart from the store and the buffer, `load_module` leaves the loader state alone. -/
lemma load_module_frame {S : Type} (core : LoaderCore S) (d : Data S) (mod : mod_t)
    (pred : mod_t → String → Bool) :
    (load_module core d mod pred).2.1.proc = d.proc ∧
    (load_module core d mod pred).2.1.bp_id = d.bp_id := by
  unfold load_module
  cases hn : core.mod_name d.proc mod with
  | none => simp
  | some name =>
    by_cases hp : pred mod name = true
    swap
    · simp [hp]
    unfold load_module_named
    cases hs : core.mod_span d.proc mod with
    | none => simp [hp]
    | some span =>
      unfold load_module_buffer
      cases hd : core.find_debug_codeview d.reader span with
      | none => simp [hp, hd]
      | some debug =>
        by_cases hz : debug.size = 0
        · simp [hp, hd, hz]
        · cases hr : d.reader.read_bytes debug.addr debug.size with
          | none => simp [hp, hd, hr, hz]
          | some bytes =>
            simp only [hp, hd, hr, hz, Bool.not_true, Bool.false_eq_true, if_false]
            cases hi : (core.insert d.symbols (core.filename name) span bytes).1 <;> simp [hi]

end Icebox

namespace Icebox

/-- The walk of the constructor over a single module is the listener fired for that
module of the target process. -/
lemma load_all_single {S : Type} (core : LoaderCore S) (d : Data S) (mod_proc : proc_t)
    (mod : mod_t) (h : d.proc.id = mod_proc.id) :
    on_mod_create core d mod_proc mod = load_all core [mod] d := by
  unfold on_mod_create load_all
  simp only [h, ne_eq, not_true_eq_false, if_false]
  rcases hl : load_module core d mod d.predicate with ⟨r, d1, evs⟩
  cases r <;> simp [load_all]

/-- The listener fired for the target process leaves state and events of `load_module`
with the loader's predicate. -/
lemma on_mod_create_target {S : Type} (core : LoaderCore S) (d : Data S) (mod_proc : proc_t)
    (mod : mod_t) (h : d.proc.id = mod_proc.id) :
    (on_mod_create core d mod_proc mod).2 = (load_module core d mod d.predicate).2 := by
  unfold on_mod_create
  simp only [h, ne_eq, not_true_eq_false, if_false]
  rcases hl : load_module core d mod d.predicate with ⟨r, d1, evs⟩
  cases r <;> rfl

/-- C11. The module-create listener of `sym::Loader`.  For an event whose process id
differs from the id of the loader's target process the listener returns at once: the
loader state (Symbol Store and buffer included) is unchanged and there is no event at
all, so neither the predicate nor a name, span, descriptor or guest read was evaluated.
For an event of the target process it does what the constructor's walk does for one
module (`load_module` with the loader's predicate); it inserts into the store exactly
when the module's name resolves, the predicate accepts it, its span and a non-empty debug
descriptor are found and the guest read succeeds, the insertion being of the bytes read
under the module's file name; and the store changes only through such an insertion. -/
theorem on_mod_create_filters_other_processes {S : Type} (core : LoaderCore S) (d : Data S)
    (mod_proc : proc_t) (mod : mod_t) :
    (d.proc.id ≠ mod_proc.id → on_mod_create core d mod_proc mod = (Exec.ret (), d, [])) ∧
    (d.proc.id = mod_proc.id →
      on_mod_create core d mod_proc mod = load_all core [mod] d ∧
      (on_mod_create core d mod_proc mod).2 = (load_module core d mod d.predicate).2 ∧
      (∀ n sp blob, LoadEv.insert n sp blob ∈ (on_mod_create core d mod_proc mod).2.2 ↔
        ∃ name debug, core.mod_name d.proc mod = some name ∧ d.predicate mod name = true ∧
          core.mod_span d.proc mod = some sp ∧
          core.find_debug_codeview d.reader sp = some debug ∧ debug.size ≠ 0 ∧
          d.reader.read_bytes debug.addr debug.size = some blob ∧ n = core.filename name) ∧
      ((on_mod_create core d mod_proc mod).2.1.symbols ≠ d.symbols →
        ∃ n sp blob, LoadEv.insert n sp blob ∈ (on_mod_create core d mod_proc mod).2.2)) := by
  refine ⟨fun h => by simp [on_mod_create, h], fun h => ?_⟩
  have ht := on_mod_create_target core d mod_proc mod h
  have hspec := load_module_spec core d mod d.predicate
  refine ⟨load_all_single core d mod_proc mod h, ht, ?_, ?_⟩
  · intro n sp blob
    rw [ht]
    exact hspec.1 n sp blob
  · rw [ht]
    exact hspec.2

/-- The listener on the example loader: an event of another process does nothing; the
module 1 of the target process is read and inserted as `ntdll`; the module 2, which has
no span, and the module 3, which has no name, are not inserted.  The constructor run
on the same environment ends with the same store. -/
lemma loader_demo :
    (on_mod_create demo_core demo_data ⟨0x3000, 0xC000⟩ ⟨1, 0⟩).2.2 = [] ∧
    (on_mod_create demo_core demo_data ⟨0x3000, 0xC000⟩ ⟨1, 0⟩).2.1.symbols = [] ∧
    (on_mod_create demo_core demo_data ⟨0x2000, 0xB000⟩ ⟨1, 0⟩).2.2
      = [LoadEv.mod_name ⟨0x2000, 0xB000⟩ ⟨1, 0⟩,
          LoadEv.predicate ⟨1, 0⟩ "C:/Windows/ntdll.dll",
          LoadEv.log_loading "C:/Windows/ntdll.dll",
          LoadEv.mod_span ⟨0x2000, 0xB000⟩ ⟨1, 0⟩,
          LoadEv.log_loaded_at "C:/Windows/ntdll.dll" ⟨0x7000, 0x1000⟩,
          LoadEv.find_debug_codeview ⟨0x7000, 0x1000⟩,
          LoadEv.read 0x7100 4,
          LoadEv.insert "ntdll" ⟨0x7000, 0x1000⟩ [0x52, 0x53, 0x44, 0x53]] ∧
    (on_mod_create demo_core demo_data ⟨0x2000, 0xB000⟩ ⟨1, 0⟩).2.1.symbols
      = [("ntdll", ⟨0x7000, 0x1000⟩, [0x52, 0x53, 0x44, 0x53])] ∧
    (on_mod_create demo_core demo_data ⟨0x2000, 0xB000⟩ ⟨2, 0⟩).2.2
      = [LoadEv.mod_name ⟨0x2000, 0xB000⟩ ⟨2, 0⟩,
          LoadEv.predicate ⟨2, 0⟩ "C:/Windows/user32.dll",
          LoadEv.log_loading "C:/Windows/user32.dll",
          LoadEv.mod_span ⟨0x2000, 0xB000⟩ ⟨2, 0⟩,
          LoadEv.log_unable_to_load "C:/Windows/user32.dll"] ∧
    (on_mod_create demo_core demo_data ⟨0x2000, 0xB000⟩ ⟨3, 0⟩).2.2
      = [LoadEv.mod_name ⟨0x2000, 0xB000⟩ ⟨3, 0⟩] ∧
    (Loader.new demo_core [] demo_data.reader ⟨0x2000, 0xB000⟩ (fun _ _ => true)).2.1.symbols
      = [("ntdll", ⟨0x7000, 0x1000⟩, [0x52, 0x53, 0x44, 0x53])] ∧
    (Loader.new demo_core [] demo_data.reader ⟨0x2000, 0xB000⟩ (fun _ _ => true)).2.1.bp_id
      = some 5 := by
  decide

end Icebox

namespace Icebox

/-! ## Termination of `OsLinux::proc_list` -/

/-- A run of the loop that finished within `fuel` is the same with more fuel. -/
lemma proc_list_loop_fuel_succ {σ : Type} (os : OsLinux) (on_process : σ → proc_t → walk_e × σ)
    (head : Nat) :
    ∀ (fuel : Nat) (link : Option Nat) (s : σ),
      (os.proc_list_loop on_process head fuel link s).1 ≠ Exec.timeout →
      os.proc_list_loop on_process head (fuel + 1) link s
        = os.proc_list_loop on_process head fuel link s
  | 0, _, _, h => by simp [OsLinux.proc_list_loop] at h
  | fuel + 1, link, s, h => by
    unfold OsLinux.proc_list_loop at h ⊢
    by_cases hl : link = some head
    · simp [hl]
    · simp only [hl, if_false] at h ⊢
      cases link with
      | none => rfl
      | some l =>
        simp only [] at h ⊢
        rcases hp : os.read_pgd (wsub l (os.off TASKSTRUCT_TASKS)) with ⟨_ | pgd, evs⟩
        · simp only [hp, after_fst] at h ⊢
          rw [proc_list_loop_fuel_succ os on_process head fuel _ s h]
        · simp only [hp] at h ⊢
          rcases hv : on_process s { id := wsub l (os.off TASKSTRUCT_TASKS), dtb := pgd }
            with ⟨_ | _, s1⟩
          · simp only [hv]
          · simp only [hv, after_fst] at h ⊢
            rw [proc_list_loop_fuel_succ os on_process head fuel _ s1 h]

/-- A run of `proc_list` that finished within `fuel` is the same with any larger fuel. -/
lemma proc_list_fuel_mono {σ : Type} (os : OsLinux) (on_process : σ → proc_t → walk_e × σ)
    (s : σ) (fuel : Nat) (h : (os.proc_list on_process fuel s).1 ≠ Exec.timeout) :
    ∀ k, os.proc_list on_process (fuel + k) s = os.proc_list on_process fuel s
  | 0 => rfl
  | k + 1 => by
    have ih := proc_list_fuel_mono os on_process s fuel h k
    rw [← ih] at h
    rw [← ih, ← Nat.add_assoc]
    revert h
    unfold OsLinux.proc_list OsLinux.proc_current
    simp only []
    cases hr : os.reader_.read (wadd os.gs_base (os.sym CURRENT_TASK)) with
    | none => simp
    | some v =>
      simp only [after_fst]
      intro h
      rw [proc_list_loop_fuel_succ os on_process _ (fuel + k) _ s h]

end Icebox

namespace Icebox

/-- On the example guest whose links cycle between 0x2030 and 0x3030, the loop entered
at either of the two never finishes, whatever the fuel, when the visitor always
continues. -/
lemma demo_cycle_loop :
    ∀ fuel : Nat,
      (demo_os_cycle.proc_list_loop (fun (_ : Unit) _ => (walk_e.WALK_NEXT, ())) 0x1030 fuel
          (some 0x2030) ()).1 = Exec.timeout ∧
      (demo_os_cycle.proc_list_loop (fun (_ : Unit) _ => (walk_e.WALK_NEXT, ())) 0x1030 fuel
          (some 0x3030) ()).1 = Exec.timeout
  | 0 => ⟨rfl, rfl⟩
  | fuel + 1 => by
    obtain ⟨ih2, ih3⟩ := demo_cycle_loop fuel
    have hp2 : demo_os_cycle.read_pgd (wsub 0x2030 (demo_os_cycle.off TASKSTRUCT_TASKS))
        = (some 0xB000, [Ev.read 0x2040]) := by decide
    have hp3 : demo_os_cycle.read_pgd (wsub 0x3030 (demo_os_cycle.off TASKSTRUCT_TASKS))
        = (some 0xC000, [Ev.read 0x3040]) := by decide
    have hr2 : demo_os_cycle.reader_.read 0x2030 = some 0x3030 := by decide
    have hr3 : demo_os_cycle.reader_.read 0x3030 = some 0x2030 := by decide
    constructor
    · unfold OsLinux.proc_list_loop
      simp only [Option.some.injEq, Nat.reduceEqDiff, if_false, hp2, hr2, after_fst]
      exact ih3
    · unfold OsLinux.proc_list_loop
      simp only [Option.some.injEq, Nat.reduceEqDiff, if_false, hp3, hr3, after_fst]
      exact ih2

/-- C12 as stated fails.  In the example guest `demo_os_cycle` every read of the walk
succeeds (current-task slot, the three links, the page-table roots), the links run from
the anchor 0x1000 to 0x2000 and 0x3000 and from there back to 0x2000, never to the
anchor; with a visitor that always answers `WALK_NEXT`, `proc_list` does not finish
within any amount of fuel: no node count bounds the walk. -/
theorem proc_list_cycle_never_returns :
    demo_os_cycle.reader_.read demo_os_cycle.current_slot = some 0x1000 ∧
    [0x1030, 0x2030, 0x3030].map demo_os_cycle.reader_.read
      = [some 0x2030, some 0x3030, some 0x2030] ∧
    [0x2030, 0x3030].map demo_os_cycle.node_proc
      = [some ⟨0x2000, 0xB000⟩, some ⟨0x3000, 0xC000⟩] ∧
    ∀ fuel : Nat,
      (demo_os_cycle.proc_list (fun (_ : Unit) _ => (walk_e.WALK_NEXT, ())) fuel ()).1
        = Exec.timeout := by
  refine ⟨by decide, by decide, by decide, fun fuel => ?_⟩
  have hc : demo_os_cycle.reader_.read (wadd demo_os_cycle.gs_base (demo_os_cycle.sym CURRENT_TASK))
      = some 0x1000 := by decide
  have hh : wadd 0x1000 (demo_os_cycle.off TASKSTRUCT_TASKS) = 0x1030 := by decide
  have hr : demo_os_cycle.reader_.read 0x1030 = some 0x2030 := by decide
  unfold OsLinux.proc_list OsLinux.proc_current
  simp only [hc, hh, hr, after_fst]
  exact (demo_cycle_loop fuel).1

/-- C12, amended.  For every guest holding a well-formed circular tasks list (the links
after the anchor run through `nodes` and lead back to the anchor) and for every visitor,
`proc_list` terminates: it returns true within `nodes.length + 1` evaluations of the loop
test, and the run is the same for every larger amount of fuel.  The walk is bounded by
the return to the anchor (or an earlier `WALK_STOP`); the code has no node-count
ceiling. -/
theorem proc_list_terminates_on_circular_list {σ : Type} (os : OsLinux)
    (on_process : σ → proc_t → walk_e × σ) (anchor : Nat) (nodes : List Nat) (s : σ) (fuel : Nat)
    (hlist : os.is_task_list anchor nodes = true) (hfuel : nodes.length < fuel) :
    (os.proc_list on_process fuel s).1 = Exec.ret true ∧
    os.proc_list on_process fuel s = os.proc_list on_process (nodes.length + 1) s := by
  have hbase := (proc_list_task_list os on_process anchor nodes (nodes.length + 1) s hlist
    (Nat.lt_succ_self _)).1
  have hmono := proc_list_fuel_mono os on_process s (nodes.length + 1)
    (by rw [hbase]; simp) (fuel - (nodes.length + 1))
  have hf : nodes.length + 1 + (fuel - (nodes.length + 1)) = fuel := by omega
  rw [hf] at hmono
  exact ⟨by rw [hmono, hbase], hmono⟩

/-- Witness of the amended C12 on the example guest `demo_os`, with ample fuel. -/
theorem proc_list_terminates_on_circular_list_witness :
    demo_os.is_task_list 0x1000 [0x2030, 0x3030] = true ∧
    ((demo_os.proc_list (fun (n : Nat) _ => (walk_e.WALK_NEXT, n + 1)) 1000 0).1 = Exec.ret true ∧
      demo_os.proc_list (fun (n : Nat) _ => (walk_e.WALK_NEXT, n + 1)) 1000 0
        = demo_os.proc_list (fun (n : Nat) _ => (walk_e.WALK_NEXT, n + 1))
            ([0x2030, 0x3030].length + 1) 0) :=
  ⟨by decide,
    proc_list_terminates_on_circular_list demo_os _ 0x1000 [0x2030, 0x3030] 0 1000 (by decide)
      (by decide)⟩

end Icebox
